import Mathlib

/-!
Shallow embedding of the gopdfrab PDF/A-1b validator core (Go sources:
types.go, cursor.go, resolver.go, document.go, verifier.go, lexer.go and
the object parser), together with proofs about the embedded operations.

Conventions used throughout:
* Go byte slices and Go strings read from the file are `List Nat`
  (one entry per byte, each < 256).
* Go `int`/`int64` are `Int` (or `Nat` where the Go code only ever stores
  non-negative values, such as page ordinals and subclause numbers).
* Go maps are association lists; Go map iteration order is unspecified,
  the embedding fixes the entry-list order.
* Fallible Go code (`(T, error)`) is `Except String T`; a Go runtime
  panic (out-of-range slice index) is `Option.none`.
-/

namespace Pdfrab

/-- Go `float32` values (the payload of `PDFReal`), modelled by their
IEEE-754 equality classes: `nan` is never `==`-equal to anything
(including itself), and each non-NaN value is identified by a rational
representative (`+0` and `-0` share the representative `0`; float32
rounding of nearby decimals to one float is not modelled). -/
inductive GoFloat where
  | nan : GoFloat
  | fin (val : Rat) : GoFloat
deriving DecidableEq, Repr

/-- Go `==` on `float32`: NaN compares unequal to everything. -/
def goFloatEq : GoFloat → GoFloat → Bool
  | .fin a, .fin b => a == b
  | _, _ => false

/-- `PDFRef` from types.go. -/
structure PDFRef where
  objNum : Int
  genNum : Int
deriving DecidableEq, Repr

/-- The `PDFValue` tagged sum from types.go.  `null` is the Go `nil`
interface value.  `PDFStreamDict` is a Go type alias of `PDFDict`
(`type PDFStreamDict = PDFDict`), so stream dictionaries and plain
dictionaries are one and the same variant here, exactly as in Go. -/
inductive PDFValue where
  | null : PDFValue
  | hexString (value : String) : PDFValue
  | str (value : String) : PDFValue
  | int (value : Int) : PDFValue
  | real (value : GoFloat) : PDFValue
  | bool (value : Bool) : PDFValue
  | name (value : String) : PDFValue
  | arr (elems : List PDFValue) : PDFValue
  | dict (entries : List (String × PDFValue)) : PDFValue
  | ref (r : PDFRef) : PDFValue

/-- Go map read `m[k]` (first matching key of the association list). -/
def lookupEntry : List (String × PDFValue) → String → Option PDFValue
  | [], _ => none
  | (k', v) :: rest, k => if k' == k then some v else lookupEntry rest k

/-- Go map write `m[k] = v`: replace the binding if the key is present,
otherwise add it. -/
def setEntry : List (String × PDFValue) → String → PDFValue → List (String × PDFValue)
  | [], k, v => [(k, v)]
  | (k', v') :: rest, k, v =>
    if k' == k then (k', v) :: rest else (k', v') :: setEntry rest k v

/-- Whether the key is bound at all (Go `_, ok := m[k]`). -/
def containsKey (es : List (String × PDFValue)) (k : String) : Bool :=
  (lookupEntry es k).isSome

mutual

/-- `EqualPDFValue` from types.go: structural recursive equality.
The leading `nil` test of the Go code is the pair of `null` rows; the
`default:` arm of the Go type switch is the final catch-all row. -/
def EqualPDFValue (a b : PDFValue) : Bool :=
  match a, b with
  | .null, .null => true
  | .null, _ => false
  | _, .null => false
  | .hexString x, .hexString y => x == y
  | .str x, .str y => x == y
  | .int x, .int y => x == y
  | .real x, .real y => goFloatEq x y
  | .bool x, .bool y => x == y
  | .name x, .name y => x == y
  | .ref x, .ref y => x.objNum == y.objNum && x.genNum == y.genNum
  | .arr xs, .arr ys => xs.length == ys.length && eqValueList xs ys
  | .dict xs, .dict ys => xs.length == ys.length && eqDictEntries xs ys
  | _, _ => false
termination_by sizeOf a

/-- The index loop of the `PDFArray` case of `EqualPDFValue`. -/
def eqValueList : List PDFValue → List PDFValue → Bool
  | [], _ => true
  | _ :: _, [] => false
  | x :: xs, y :: ys => EqualPDFValue x y && eqValueList xs ys
termination_by xs ys => sizeOf xs

/-- The key loop of the `PDFDict` case of `EqualPDFValue`: every entry of
the first dictionary must be bound in the second to an equal value. -/
def eqDictEntries : List (String × PDFValue) → List (String × PDFValue) → Bool
  | [], _ => true
  | (k, va) :: rest, ys =>
    match lookupEntry ys k with
    | none => false
    | some vb => EqualPDFValue va vb && eqDictEntries rest ys
termination_by xs ys => sizeOf xs

end

/-- No key occurs twice in the entry list. -/
def nodupKeys : List (String × PDFValue) → Bool
  | [] => true
  | (k, _) :: rest => !containsKey rest k && nodupKeys rest

mutual

/-- Go map well-formedness: keys of every dictionary anywhere in the
value are pairwise distinct (a Go `map` cannot bind a key twice). -/
def wfValue : PDFValue → Bool
  | .arr xs => wfList xs
  | .dict es => nodupKeys es && wfEntries es
  | _ => true

/-- `wfValue` on every element of a list. -/
def wfList : List PDFValue → Bool
  | [] => true
  | x :: xs => wfValue x && wfList xs

/-- `wfValue` on every value of an entry list. -/
def wfEntries : List (String × PDFValue) → Bool
  | [] => true
  | (_, v) :: rest => wfValue v && wfEntries rest

end

mutual

/-- No `GoFloat.nan` payload occurs anywhere in the value. -/
def nanFree : PDFValue → Bool
  | .real .nan => false
  | .arr xs => nanFreeList xs
  | .dict es => nanFreeEntries es
  | _ => true

/-- `nanFree` on every element of a list. -/
def nanFreeList : List PDFValue → Bool
  | [] => true
  | x :: xs => nanFree x && nanFreeList xs

/-- `nanFree` on every value of an entry list. -/
def nanFreeEntries : List (String × PDFValue) → Bool
  | [] => true
  | (_, v) :: rest => nanFree v && nanFreeEntries rest

end

/-- The variant (Go dynamic type) of a `PDFValue`. -/
def variantIdx : PDFValue → Nat
  | .null => 0
  | .hexString _ => 1
  | .str _ => 2
  | .int _ => 3
  | .real _ => 4
  | .bool _ => 5
  | .name _ => 6
  | .arr _ => 7
  | .dict _ => 8
  | .ref _ => 9

theorem lookupEntry_mem {es : List (String × PDFValue)} {k : String} {v : PDFValue}
    (h : lookupEntry es k = some v) : (k, v) ∈ es := by
  induction es with
  | nil => simp [lookupEntry] at h
  | cons p rest ih =>
    obtain ⟨k', v'⟩ := p
    rw [lookupEntry] at h
    split at h
    · next hc =>
      injection h with h
      subst h
      have : k' = k := by simpa using hc
      subst this
      exact List.mem_cons_self _ _
    · exact List.mem_cons_of_mem _ (ih h)

theorem containsKey_of_mem {es : List (String × PDFValue)} {k : String} {v : PDFValue}
    (h : (k, v) ∈ es) : containsKey es k = true := by
  induction es with
  | nil => simp at h
  | cons p rest ih =>
    obtain ⟨k', v'⟩ := p
    rcases List.mem_cons.mp h with heq | hmem
    · injection heq with h1 h2
      subst h1
      simp [containsKey, lookupEntry]
    · simp only [containsKey, lookupEntry]
      split
      · simp
      · exact ih hmem

theorem mem_lookupEntry_of_nodup {es : List (String × PDFValue)} {k : String} {v : PDFValue}
    (hnd : nodupKeys es = true) (h : (k, v) ∈ es) : lookupEntry es k = some v := by
  induction es with
  | nil => simp at h
  | cons p rest ih =>
    obtain ⟨k', v'⟩ := p
    rw [nodupKeys, Bool.and_eq_true] at hnd
    rcases List.mem_cons.mp h with heq | hmem
    · injection heq with h1 h2
      subst h1; subst h2
      simp [lookupEntry]
    · rw [lookupEntry]
      split
      · next hc =>
        have : k' = k := by simpa using hc
        subst this
        have := containsKey_of_mem hmem
        simp [this] at hnd
      · exact ih hnd.2 hmem

theorem mem_keys_iff {es : List (String × PDFValue)} {k : String} :
    k ∈ es.map Prod.fst ↔ ∃ v, (k, v) ∈ es := by
  constructor
  · intro hk
    obtain ⟨⟨k0, v⟩, hmem, hfst⟩ := List.mem_map.mp hk
    exact ⟨v, by simpa [← hfst] using hmem⟩
  · rintro ⟨v, hv⟩
    exact List.mem_map_of_mem Prod.fst hv

theorem nodupKeys_iff_nodup {es : List (String × PDFValue)} :
    nodupKeys es = true ↔ (es.map Prod.fst).Nodup := by
  induction es with
  | nil => simp [nodupKeys]
  | cons p rest ih =>
    obtain ⟨k, v⟩ := p
    rw [nodupKeys, Bool.and_eq_true]
    simp only [List.map_cons, List.nodup_cons, ← ih]
    constructor
    · rintro ⟨hnc, hnd⟩
      refine ⟨fun hk => ?_, hnd⟩
      obtain ⟨w, hw⟩ := mem_keys_iff.mp hk
      have := containsKey_of_mem hw
      simp [this] at hnc
    · rintro ⟨hk, hnd⟩
      refine ⟨?_, hnd⟩
      by_contra hc
      simp only [Bool.not_eq_true, Bool.not_eq_false] at hc
      obtain ⟨w, hw⟩ : ∃ w, lookupEntry rest k = some w := by
        cases hl : lookupEntry rest k with
        | none => simp [containsKey, hl] at hc
        | some w => exact ⟨w, rfl⟩
      exact hk (mem_keys_iff.mpr ⟨w, lookupEntry_mem hw⟩)

theorem eqDictEntries_iff {xs ys : List (String × PDFValue)} :
    eqDictEntries xs ys = true ↔
      ∀ p ∈ xs, ∃ vb, lookupEntry ys p.1 = some vb ∧ EqualPDFValue p.2 vb = true := by
  induction xs with
  | nil => simp [eqDictEntries]
  | cons p rest ih =>
    obtain ⟨k, va⟩ := p
    rw [eqDictEntries]
    cases hl : lookupEntry ys k with
    | none =>
      constructor
      · intro h; simp at h
      · intro hall
        obtain ⟨vb, hvb, _⟩ := hall (k, va) (List.mem_cons_self _ _)
        simp [hl] at hvb
    | some vb =>
      rw [Bool.and_eq_true, ih]
      constructor
      · rintro ⟨h1, h2⟩
        intro q hq
        rcases List.mem_cons.mp hq with heq | hmem
        · subst heq
          exact ⟨vb, hl, h1⟩
        · exact h2 q hmem
      · intro hall
        refine ⟨?_, fun q hq => hall q (List.mem_cons_of_mem _ hq)⟩
        obtain ⟨vb', hvb', heq'⟩ := hall (k, va) (List.mem_cons_self _ _)
        rw [hl] at hvb'
        injection hvb' with hvb'
        subst hvb'
        exact heq'

theorem wfList_mem {xs : List PDFValue} {x : PDFValue}
    (h : wfList xs = true) (hm : x ∈ xs) : wfValue x = true := by
  induction xs with
  | nil => simp at hm
  | cons y rest ih =>
    rw [wfList, Bool.and_eq_true] at h
    rcases List.mem_cons.mp hm with heq | hmem
    · subst heq; exact h.1
    · exact ih h.2 hmem

theorem wfEntries_mem {es : List (String × PDFValue)} {k : String} {v : PDFValue}
    (h : wfEntries es = true) (hm : (k, v) ∈ es) : wfValue v = true := by
  induction es with
  | nil => simp at hm
  | cons p rest ih =>
    obtain ⟨k', v'⟩ := p
    rw [wfEntries, Bool.and_eq_true] at h
    rcases List.mem_cons.mp hm with heq | hmem
    · injection heq with h1 h2; subst h2; exact h.1
    · exact ih h.2 hmem

theorem nanFreeList_mem {xs : List PDFValue} {x : PDFValue}
    (h : nanFreeList xs = true) (hm : x ∈ xs) : nanFree x = true := by
  induction xs with
  | nil => simp at hm
  | cons y rest ih =>
    rw [nanFreeList, Bool.and_eq_true] at h
    rcases List.mem_cons.mp hm with heq | hmem
    · subst heq; exact h.1
    · exact ih h.2 hmem

theorem nanFreeEntries_mem {es : List (String × PDFValue)} {k : String} {v : PDFValue}
    (h : nanFreeEntries es = true) (hm : (k, v) ∈ es) : nanFree v = true := by
  induction es with
  | nil => simp at hm
  | cons p rest ih =>
    obtain ⟨k', v'⟩ := p
    rw [nanFreeEntries, Bool.and_eq_true] at h
    rcases List.mem_cons.mp hm with heq | hmem
    · injection heq with h1 h2; subst h2; exact h.1
    · exact ih h.2 hmem

theorem sizeOf_val_of_mem_entries {es : List (String × PDFValue)} {k : String} {v : PDFValue}
    (h : (k, v) ∈ es) : sizeOf v < sizeOf es := by
  have h1 := List.sizeOf_lt_of_mem h
  have h2 : sizeOf v < sizeOf (k, v) := by
    simp only [Prod.mk.sizeOf_spec]
    omega
  omega

theorem eqPDFValue_refl_size :
    ∀ (n : Nat) (a : PDFValue), sizeOf a < n → wfValue a = true → nanFree a = true →
      EqualPDFValue a a = true := by
  intro n
  induction n with
  | zero => intro a h _ _; omega
  | succ n IH =>
    intro a hsz hwf hnf
    cases a with
    | null => simp [EqualPDFValue]
    | hexString s => simp [EqualPDFValue]
    | str s => simp [EqualPDFValue]
    | int x => simp [EqualPDFValue]
    | real g =>
      cases g with
      | nan => simp [nanFree] at hnf
      | fin q => simp [EqualPDFValue, goFloatEq]
    | bool b => simp [EqualPDFValue]
    | name s => simp [EqualPDFValue]
    | ref r => simp [EqualPDFValue]
    | arr xs =>
      simp only [wfValue] at hwf
      simp only [nanFree] at hnf
      simp only [EqualPDFValue, beq_self_eq_true, Bool.true_and]
      have aux : ∀ l : List PDFValue, (∀ x ∈ l, x ∈ xs) → eqValueList l l = true := by
        intro l
        induction l with
        | nil => intro _; simp [eqValueList]
        | cons x rest ihl =>
          intro hsub
          simp only [eqValueList, Bool.and_eq_true]
          have hx : x ∈ xs := hsub x (List.mem_cons_self _ _)
          refine ⟨?_, ihl (fun y hy => hsub y (List.mem_cons_of_mem _ hy))⟩
          apply IH
          · have h1 := List.sizeOf_lt_of_mem hx
            simp only [PDFValue.arr.sizeOf_spec] at hsz
            omega
          · exact wfList_mem hwf hx
          · exact nanFreeList_mem hnf hx
      exact aux xs (fun _ hx => hx)
    | dict es =>
      simp only [wfValue, Bool.and_eq_true] at hwf
      simp only [nanFree] at hnf
      simp only [EqualPDFValue, beq_self_eq_true, Bool.true_and]
      refine eqDictEntries_iff.mpr ?_
      intro p hp
      obtain ⟨k, v⟩ := p
      show ∃ vb, lookupEntry es k = some vb ∧ EqualPDFValue v vb = true
      refine ⟨v, mem_lookupEntry_of_nodup hwf.1 hp, ?_⟩
      apply IH
      · have h1 := sizeOf_val_of_mem_entries hp
        simp only [PDFValue.dict.sizeOf_spec] at hsz
        omega
      · exact wfEntries_mem hwf.2 hp
      · exact nanFreeEntries_mem hnf hp

theorem eqPDFValue_symm_size :
    ∀ (n : Nat) (a b : PDFValue), sizeOf a < n → wfValue a = true → wfValue b = true →
      EqualPDFValue a b = true → EqualPDFValue b a = true := by
  intro n
  induction n with
  | zero => intro a b h _ _ _; omega
  | succ n IH =>
    intro a b hsz hwa hwb heq
    cases a with
    | null => cases b <;> simp_all [EqualPDFValue]
    | hexString s => cases b <;> simp_all [EqualPDFValue]
    | str s => cases b <;> simp_all [EqualPDFValue]
    | int x => cases b <;> simp_all [EqualPDFValue]
    | bool x => cases b <;> simp_all [EqualPDFValue]
    | name x => cases b <;> simp_all [EqualPDFValue]
    | ref r => cases b <;> simp_all [EqualPDFValue]
    | real gx =>
      cases b <;> simp_all [EqualPDFValue]
      rename_i gy
      cases gx <;> cases gy <;> simp_all [goFloatEq]
    | arr xs =>
      cases b <;> simp_all [EqualPDFValue]
      rename_i ys
      obtain ⟨hlen, hlist⟩ := heq
      simp only [wfValue] at hwa hwb
      have aux : ∀ (l1 l2 : List PDFValue), (∀ x ∈ l1, x ∈ xs) → (∀ y ∈ l2, y ∈ ys) →
          l1.length = l2.length → eqValueList l1 l2 = true → eqValueList l2 l1 = true := by
        intro l1
        induction l1 with
        | nil =>
          intro l2 _ _ hl _
          cases l2 with
          | nil => simp [eqValueList]
          | cons y t => simp at hl
        | cons x r ihl =>
          intro l2 hm1 hm2 hl h12
          cases l2 with
          | nil => simp at hl
          | cons y t =>
            simp only [eqValueList, Bool.and_eq_true] at h12 ⊢
            obtain ⟨hxy, hrt⟩ := h12
            refine ⟨?_, ihl t (fun z hz => hm1 z (List.mem_cons_of_mem _ hz))
              (fun z hz => hm2 z (List.mem_cons_of_mem _ hz)) (by simpa using hl) hrt⟩
            apply IH
            · have h1 := List.sizeOf_lt_of_mem (hm1 x (List.mem_cons_self _ _))
              try simp only [PDFValue.arr.sizeOf_spec] at hsz
              omega
            · exact wfList_mem hwa (hm1 x (List.mem_cons_self _ _))
            · exact wfList_mem hwb (hm2 y (List.mem_cons_self _ _))
            · exact hxy
      exact aux xs ys (fun _ h => h) (fun _ h => h) hlen hlist
    | dict xs =>
      cases b <;> simp_all [EqualPDFValue]
      rename_i ys
      obtain ⟨hlen, hed⟩ := heq
      simp only [wfValue, Bool.and_eq_true] at hwa hwb
      have hforall := eqDictEntries_iff.mp hed
      have hnd1 : (xs.map Prod.fst).Nodup := nodupKeys_iff_nodup.mp hwa.1
      have hnd2 : (ys.map Prod.fst).Nodup := nodupKeys_iff_nodup.mp hwb.1
      have hsub : xs.map Prod.fst ⊆ ys.map Prod.fst := by
        intro k hk
        obtain ⟨va, hmem⟩ := mem_keys_iff.mp hk
        obtain ⟨vb, hl, _⟩ := hforall _ hmem
        exact mem_keys_iff.mpr ⟨vb, lookupEntry_mem hl⟩
      have hkeys_eq : (xs.map Prod.fst).toFinset = (ys.map Prod.fst).toFinset := by
        apply Finset.eq_of_subset_of_card_le
        · intro x hx
          simp only [List.mem_toFinset] at hx ⊢
          exact hsub hx
        · rw [List.toFinset_card_of_nodup hnd2, List.toFinset_card_of_nodup hnd1]
          simp [hlen]
      have hsub2 : ∀ k, k ∈ ys.map Prod.fst → k ∈ xs.map Prod.fst := by
        intro k hk
        have : k ∈ (ys.map Prod.fst).toFinset := List.mem_toFinset.mpr hk
        rw [← hkeys_eq] at this
        exact List.mem_toFinset.mp this
      have hmain : eqDictEntries ys xs = true := by
        refine eqDictEntries_iff.mpr ?_
        intro p hp
        obtain ⟨k, vb⟩ := p
        show ∃ va, lookupEntry xs k = some va ∧ EqualPDFValue vb va = true
        have hk : k ∈ xs.map Prod.fst :=
          hsub2 k (mem_keys_iff.mpr ⟨vb, hp⟩)
        obtain ⟨va, hmja⟩ := mem_keys_iff.mp hk
        obtain ⟨vb', hlb, heqv⟩ := hforall _ hmja
        have hlb2 : lookupEntry ys k = some vb := mem_lookupEntry_of_nodup hwb.1 hp
        rw [hlb2] at hlb
        injection hlb with hlb
        subst hlb
        refine ⟨va, mem_lookupEntry_of_nodup hwa.1 hmja, ?_⟩
        apply IH
        · have h1 := sizeOf_val_of_mem_entries hmja
          try simp only [PDFValue.dict.sizeOf_spec] at hsz
          omega
        · exact wfEntries_mem hwa.2 hmja
        · exact wfEntries_mem hwb.2 hp
        · exact heqv
      exact hmain

theorem eqPDFValue_trans_size :
    ∀ (n : Nat) (a b c : PDFValue), sizeOf a < n → EqualPDFValue a b = true →
      EqualPDFValue b c = true → EqualPDFValue a c = true := by
  intro n
  induction n with
  | zero => intro a b c h _ _; omega
  | succ n IH =>
    intro a b c hsz hab hbc
    cases a with
    | null => cases b <;> simp_all [EqualPDFValue]
    | hexString s => cases b <;> simp_all [EqualPDFValue]
    | str s => cases b <;> simp_all [EqualPDFValue]
    | int x => cases b <;> simp_all [EqualPDFValue]
    | bool x => cases b <;> simp_all [EqualPDFValue]
    | name x => cases b <;> simp_all [EqualPDFValue]
    | ref r =>
      obtain ⟨ro, rg⟩ := r
      cases b <;> simp_all [EqualPDFValue]
    | real gx =>
      cases b <;> simp_all [EqualPDFValue]
      rename_i gy
      cases gx <;> cases gy <;> simp_all [goFloatEq]
    | arr xs =>
      cases b <;> simp_all [EqualPDFValue]
      rename_i ys
      obtain ⟨hlen1, hlist1⟩ := hab
      cases c <;> simp_all [EqualPDFValue]
      rename_i zs
      obtain ⟨hlen2, hlist2⟩ := hbc
      have aux : ∀ (l1 l2 l3 : List PDFValue), (∀ x ∈ l1, x ∈ xs) →
          eqValueList l1 l2 = true → eqValueList l2 l3 = true →
          l1.length = l2.length → eqValueList l1 l3 = true := by
        intro l1
        induction l1 with
        | nil => intro l2 l3 _ _ _ _; simp [eqValueList]
        | cons x r ihl =>
          intro l2 l3 hm1 h12 h23 hl
          cases l2 with
          | nil => simp at hl
          | cons y t =>
            cases l3 with
            | nil =>
              simp [eqValueList] at h23
            | cons z u =>
              simp only [eqValueList, Bool.and_eq_true] at h12 h23 ⊢
              obtain ⟨hxy, hrt⟩ := h12
              obtain ⟨hyz, htu⟩ := h23
              refine ⟨?_, ihl t u (fun w hw => hm1 w (List.mem_cons_of_mem _ hw))
                hrt htu (by simpa using hl)⟩
              apply IH x y z
              · have h1 := List.sizeOf_lt_of_mem (hm1 x (List.mem_cons_self _ _))
                try simp only [PDFValue.arr.sizeOf_spec] at hsz
                omega
              · exact hxy
              · exact hyz
      exact aux xs ys zs (fun _ h => h) hlist1 hlist2 (by omega)
    | dict xs =>
      cases b <;> simp_all [EqualPDFValue]
      rename_i ys
      obtain ⟨hlen1, hed1⟩ := hab
      cases c <;> simp_all [EqualPDFValue]
      rename_i zs
      obtain ⟨hlen2, hed2⟩ := hbc
      have hf1 := eqDictEntries_iff.mp hed1
      have hf2 := eqDictEntries_iff.mp hed2
      have hmain : eqDictEntries xs zs = true := by
        refine eqDictEntries_iff.mpr ?_
        intro p hp
        obtain ⟨k, va⟩ := p
        show ∃ vc, lookupEntry zs k = some vc ∧ EqualPDFValue va vc = true
        obtain ⟨vb, hlb, heq1⟩ := hf1 _ hp
        obtain ⟨vc, hlc, heq2⟩ := hf2 _ (lookupEntry_mem hlb)
        refine ⟨vc, hlc, ?_⟩
        apply IH va vb vc
        · have h1 := sizeOf_val_of_mem_entries hp
          try simp only [PDFValue.dict.sizeOf_spec] at hsz
          omega
        · exact heq1
        · exact heq2
      exact hmain

theorem eqPDFValue_distinct_variants_aux :
    ∀ a b : PDFValue, variantIdx a ≠ variantIdx b → EqualPDFValue a b = false := by
  intro a b h
  cases a <;> cases b <;> simp_all [EqualPDFValue, variantIdx]

/-- C7 (amended): `EqualPDFValue` is an equivalence relation up to the IEEE
NaN quirk of the `PDFReal` (float32) variant: it is reflexive on every
well-formed value that contains no NaN real, symmetric on well-formed
values (well-formed = Go map invariant: no duplicate dictionary keys),
and transitive unconditionally; two Refs compare equal exactly when both
object number and generation number match; and two values of distinct
variants never compare equal. -/
theorem C7_equalPDFValue_equivalence :
    (∀ a : PDFValue, wfValue a = true → nanFree a = true → EqualPDFValue a a = true) ∧
    (∀ a b : PDFValue, wfValue a = true → wfValue b = true →
      EqualPDFValue a b = EqualPDFValue b a) ∧
    (∀ a b c : PDFValue, EqualPDFValue a b = true → EqualPDFValue b c = true →
      EqualPDFValue a c = true) ∧
    (∀ r1 r2 : PDFRef, EqualPDFValue (.ref r1) (.ref r2) = true ↔
      (r1.objNum = r2.objNum ∧ r1.genNum = r2.genNum)) ∧
    (∀ a b : PDFValue, variantIdx a ≠ variantIdx b → EqualPDFValue a b = false) := by
  refine ⟨?_, ?_, ?_, ?_, eqPDFValue_distinct_variants_aux⟩
  · intro a hw hn
    exact eqPDFValue_refl_size (sizeOf a + 1) a (by omega) hw hn
  · intro a b hwa hwb
    rw [Bool.eq_iff_iff]
    constructor
    · exact eqPDFValue_symm_size (sizeOf a + 1) a b (by omega) hwa hwb
    · exact eqPDFValue_symm_size (sizeOf b + 1) b a (by omega) hwb hwa
  · intro a b c hab hbc
    exact eqPDFValue_trans_size (sizeOf a + 1) a b c (by omega) hab hbc
  · intro r1 r2
    obtain ⟨o1, g1⟩ := r1
    obtain ⟨o2, g2⟩ := r2
    simp [EqualPDFValue]

/-- C7 counterexample: reflexivity of `EqualPDFValue` fails as literally
claimed, because `PDFReal` carries a Go `float32` and Go `==` on a NaN
float is false even against itself, so a `PDFReal(NaN)` value does not
compare equal to itself. -/
theorem C7_counterexample_nan_not_reflexive :
    EqualPDFValue (.real .nan) (.real .nan) = false := by
  simp [EqualPDFValue, goFloatEq]

/-- Witness for C7: the amended theorem applied at concrete values, with
every hypothesis discharged by evaluation. -/
theorem C7_equalPDFValue_equivalence_witness :
    EqualPDFValue (.dict [("Kids", .arr [.ref ⟨2, 0⟩])])
        (.dict [("Kids", .arr [.ref ⟨2, 0⟩])]) = true ∧
    EqualPDFValue (.int 1) (.int 1) = true :=
  ⟨C7_equalPDFValue_equivalence.1 _
      (by simp [wfValue, wfEntries, wfList, nodupKeys, containsKey, lookupEntry])
      (by simp [nanFree, nanFreeEntries, nanFreeList]),
    C7_equalPDFValue_equivalence.2.2.1 (.int 1) (.int 1) (.int 1)
      (by simp [EqualPDFValue]) (by simp [EqualPDFValue])⟩

/-- The body of an indirect object as the lexer/parser layer delivers it
to `resolveReference` (resolver.go): a parsed dictionary (a stream
dictionary is the same thing, `PDFStreamDict` being an alias of
`PDFDict`), a parsed array, or any other single token.  Seeking to the
xref offset, lexing `N G obj`, parsing, and consuming a stream payload
are abstracted into the document's object store; a store miss (`none`)
stands for any failure of that layer: an object number missing from the
xref table, a seek/read error, or a parse/stream error. -/
inductive IndirectObj where
  | dictObj (entries : List (String × PDFValue)) : IndirectObj
  | arrObj (elems : List PDFValue) : IndirectObj
  | primObj (tokenValue : String) : IndirectObj

/-- The `Document` state (document.go) relevant to resolution and
verification: the raw file bytes, the parsed trailer, the xref offset,
and the indirect-object store (see `IndirectObj`). -/
structure Document where
  fileBytes : List Nat
  trailer : List (String × PDFValue)
  xrefOffset : Nat
  objects : Int → Option IndirectObj

/-- `resolveReference` from resolver.go: fetch and parse the indirect
object at `ref`; a parsed dictionary is augmented with `m["_ref"] = ref`
before return (for a stream body the result `PDFStreamDict(m)` is the
same value, the type being an alias); an array is returned as-is; any
other primitive is wrapped as a `PDFString` of its token text. -/
def resolveReference (d : Document) (ref : PDFRef) : Except String PDFValue :=
  match d.objects ref.objNum with
  | none => .error ("object " ++ toString ref.objNum ++ " not found in xref table")
  | some (.dictObj m) => .ok (.dict (setEntry m "_ref" (.ref ref)))
  | some (.arrObj a) => .ok (.arr a)
  | some (.primObj s) => .ok (.str s)

mutual

/-- `resolveObject` from resolver.go: dereference a Ref once via
`resolveReference` (without recursing into the produced value), rebuild
dictionaries and arrays with each member resolved, and return any other
value unchanged. -/
def resolveObject (d : Document) : PDFValue → Except String PDFValue
  | .ref r => resolveReference d r
  | .dict es =>
    match resolveObjectEntries d es with
    | .error e => .error e
    | .ok out => .ok (.dict out)
  | .arr xs =>
    match resolveObjectList d xs with
    | .error e => .error e
    | .ok out => .ok (.arr out)
  | v => .ok v

/-- The `PDFDict` loop of `resolveObject` (`out[k] = resolved`). -/
def resolveObjectEntries (d : Document) :
    List (String × PDFValue) → Except String (List (String × PDFValue))
  | [] => .ok []
  | (k, v) :: rest =>
    match resolveObject d v with
    | .error e => .error e
    | .ok r =>
      match resolveObjectEntries d rest with
      | .error e => .error e
      | .ok rs => .ok ((k, r) :: rs)

/-- The `PDFArray` loop of `resolveObject`. -/
def resolveObjectList (d : Document) : List PDFValue → Except String (List PDFValue)
  | [] => .ok []
  | v :: rest =>
    match resolveObject d v with
    | .error e => .error e
    | .ok r =>
      match resolveObjectList d rest with
      | .error e => .error e
      | .ok rs => .ok (r :: rs)

end

/-- One digit-run step of Go `strconv.Atoi`. -/
def digitsToNatAux : List Char → Nat → Option Nat
  | [], acc => some acc
  | c :: rest, acc =>
    if 48 ≤ c.toNat ∧ c.toNat ≤ 57 then
      digitsToNatAux rest (acc * 10 + (c.toNat - 48))
    else none

/-- Go `strconv.Atoi`: an optional leading sign followed by one or more
decimal digits and nothing else (the 64-bit range check is not
modelled). -/
def goAtoi (s : String) : Option Int :=
  match s.data with
  | [] => none
  | c :: rest =>
    if c.toNat == 43 then
      match rest with
      | [] => none
      | _ => (digitsToNatAux rest 0).map (fun n => (n : Int))
    else if c.toNat == 45 then
      match rest with
      | [] => none
      | _ => (digitsToNatAux rest 0).map (fun n => -(n : Int))
    else (digitsToNatAux (c :: rest) 0).map (fun n => (n : Int))

/-- Go `n, _ := strconv.Atoi(s)`: the error is discarded and the zero
value 0 is used. -/
def goAtoiD (s : String) : Int := (goAtoi s).getD 0

/-- The `for _, key := range path` loop of `resolvePath` (document.go):
re-resolve the current node, then index it by the path segment — a
decimal segment indexes an array (a non-decimal segment returns the
array, ending the walk), a segment keys a dictionary, and any other
current value is returned as-is. -/
def resolvePathLoop (d : Document) : PDFValue → List String → Except String PDFValue
  | cur, [] => resolveObject d cur
  | cur, key :: rest =>
    match resolveObject d cur with
    | .error e => .error e
    | .ok c =>
      match c with
      | .arr a =>
        match goAtoi key with
        | none => .ok (.arr a)
        | some idx =>
          if h : 0 ≤ idx ∧ idx.toNat < a.length then
            resolvePathLoop d (a.get ⟨idx.toNat, h.2⟩) rest
          else .error ("array index out of range: " ++ toString idx)
      | .dict es =>
        match lookupEntry es key with
        | none => .error ("key \"" ++ key ++ "\" not found in dictionary")
        | some v => resolvePathLoop d v rest
      | other => .ok other

/-- `resolvePath` from document.go: resolve the starting node, run the
path loop, and resolve the final node once more. -/
def resolvePath (d : Document) (node : PDFValue) (path : List String) :
    Except String PDFValue :=
  match resolveObject d node with
  | .error e => .error e
  | .ok cur => resolvePathLoop d cur path

/-- `ResolveGraphByPath` from document.go: reject the empty path, then
walk from the trailer. -/
def resolveGraphByPath (d : Document) (path : List String) : Except String PDFValue :=
  if path.isEmpty then .error "path cannot be empty"
  else resolvePath d (.dict d.trailer) path

/-- The per-run `visited` map of `resolveAll` (object number → resolved
value). -/
abbrev Visited := List (Int × PDFValue)

/-- Go map read on the visited map. -/
def lookupVisited : Visited → Int → Option PDFValue
  | [], _ => none
  | (id', v) :: rest, id => if id' == id then some v else lookupVisited rest id

/-- Go map write on the visited map. -/
def insertVisited : Visited → Int → PDFValue → Visited
  | [], id, v => [(id, v)]
  | (id', v') :: rest, id, v =>
    if id' == id then (id', v) :: rest else (id', v') :: insertVisited rest id v

/-- The dictionary loop of `resolveAll` (`out[k] = r`), threading the
visited map; the per-value resolver (the recursive `resolveAll` call at
the next fuel level) is passed in as `f`. -/
def resolveAllEntries (f : PDFValue → Visited → Except String (PDFValue × Visited)) :
    List (String × PDFValue) → Visited → Except String (List (String × PDFValue) × Visited)
  | [], vis => .ok ([], vis)
  | (k, v) :: rest, vis =>
    match f v vis with
    | .error e => .error e
    | .ok (r, vis1) =>
      match resolveAllEntries f rest vis1 with
      | .error e => .error e
      | .ok (rs, vis2) => .ok ((k, r) :: rs, vis2)

/-- The array loop of `resolveAll`, threading the visited map; the
per-element resolver is passed in as `f`. -/
def resolveAllList (f : PDFValue → Visited → Except String (PDFValue × Visited)) :
    List PDFValue → Visited → Except String (List PDFValue × Visited)
  | [], vis => .ok ([], vis)
  | v :: rest, vis =>
    match f v vis with
    | .error e => .error e
    | .ok (r, vis1) =>
      match resolveAllList f rest vis1 with
      | .error e => .error e
      | .ok (rs, vis2) => .ok (r :: rs, vis2)

/-- `resolveAll` from document.go: recursive materialisation of the
reachable graph.  A Ref already in `visited` returns the cached value;
otherwise the reference is resolved once, the produced value is cached
under the object number *before* recursing, and the cache entry is
overwritten with the fully resolved value afterwards.  Dicts (including
stream dicts — one variant here, the Go type being an alias) and arrays
are rebuilt with every member resolved; primitives are returned
unchanged.  The Go recursion has no depth bound; the `fuel` argument only
bounds the modelled recursion depth and its exhaustion is an error the Go
code cannot produce. -/
def resolveAll (d : Document) : Nat → PDFValue → Visited → Except String (PDFValue × Visited)
  | 0, _, _ => .error "resolution recursion limit exceeded"
  | fuel + 1, v, vis =>
    match v with
    | .ref r =>
      match lookupVisited vis r.objNum with
      | some cached => .ok (cached, vis)
      | none =>
        match resolveReference d r with
        | .error e => .error e
        | .ok indirect =>
          match resolveAll d fuel indirect (insertVisited vis r.objNum indirect) with
          | .error e => .error e
          | .ok (resolved, vis2) => .ok (resolved, insertVisited vis2 r.objNum resolved)
    | .dict es =>
      match resolveAllEntries (resolveAll d fuel) es vis with
      | .error e => .error e
      | .ok (out, vis2) => .ok (.dict out, vis2)
    | .arr xs =>
      match resolveAllList (resolveAll d fuel) xs vis with
      | .error e => .error e
      | .ok (out, vis2) => .ok (.arr out, vis2)
    | prim => .ok (prim, vis)

/-- `ResolveGraph` from document.go: `resolveAll` on the trailer with a
fresh visited map. -/
def resolveGraph (d : Document) (fuel : Nat) : Except String PDFValue :=
  match resolveAll d fuel (.dict d.trailer) [] with
  | .error e => .error e
  | .ok (g, _) => .ok g

/-- One whole `resolveAll` pass over a value with a fresh per-run visited
map (what a second `ResolveGraph`-style full resolution applies to an
already materialised value). -/
def resolveAllFresh (d : Document) (fuel : Nat) (v : PDFValue) : Except String PDFValue :=
  match resolveAll d fuel v [] with
  | .error e => .error e
  | .ok (r, _) => .ok r

mutual

/-- No `PDFRef` occurs anywhere in the value. -/
def refFree : PDFValue → Bool
  | .ref _ => false
  | .arr xs => refFreeList xs
  | .dict es => refFreeEntries es
  | _ => true

/-- `refFree` on every element of a list. -/
def refFreeList : List PDFValue → Bool
  | [] => true
  | x :: xs => refFree x && refFreeList xs

/-- `refFree` on every value of an entry list. -/
def refFreeEntries : List (String × PDFValue) → Bool
  | [] => true
  | (_, v) :: rest => refFree v && refFreeEntries rest

end

theorem refFreeList_mem {xs : List PDFValue} {x : PDFValue}
    (h : refFreeList xs = true) (hm : x ∈ xs) : refFree x = true := by
  induction xs with
  | nil => simp at hm
  | cons y rest ih =>
    rw [refFreeList, Bool.and_eq_true] at h
    rcases List.mem_cons.mp hm with heq | hmem
    · subst heq; exact h.1
    · exact ih h.2 hmem

theorem refFreeEntries_mem {es : List (String × PDFValue)} {k : String} {v : PDFValue}
    (h : refFreeEntries es = true) (hm : (k, v) ∈ es) : refFree v = true := by
  induction es with
  | nil => simp at hm
  | cons p rest ih =>
    obtain ⟨k', v'⟩ := p
    rw [refFreeEntries, Bool.and_eq_true] at h
    rcases List.mem_cons.mp hm with heq | hmem
    · injection heq with h1 h2; subst h2; exact h.1
    · exact ih h.2 hmem

theorem resolveAll_id_size :
    ∀ (n : Nat) (d : Document) (fuel : Nat) (v : PDFValue) (vis : Visited),
      sizeOf v < n → refFree v = true → sizeOf v ≤ fuel →
      resolveAll d fuel v vis = .ok (v, vis) := by
  intro n
  induction n with
  | zero => intro d fuel v vis h _ _; omega
  | succ n IH =>
    intro d fuel v vis hsz hrf hfu
    have hpos : 0 < sizeOf v := by cases v <;> simp_arith
    cases fuel with
    | zero => omega
    | succ fuel =>
      cases v with
      | ref r => simp [refFree] at hrf
      | dict es =>
        simp only [refFree] at hrf
        have hfu2 : sizeOf es ≤ fuel := by
          simp only [PDFValue.dict.sizeOf_spec] at hfu
          omega
        have hsz2 : sizeOf es < n := by
          simp only [PDFValue.dict.sizeOf_spec] at hsz
          omega
        have aux : ∀ (l : List (String × PDFValue)) (vis' : Visited), (∀ p ∈ l, p ∈ es) →
            resolveAllEntries (resolveAll d fuel) l vis' = .ok (l, vis') := by
          intro l
          induction l with
          | nil => intro vis' _; simp [resolveAllEntries]
          | cons p rest ihl =>
            intro vis' hm
            obtain ⟨k, v0⟩ := p
            have hmem := hm (k, v0) (List.mem_cons_self _ _)
            have hv : resolveAll d fuel v0 vis' = .ok (v0, vis') := by
              apply IH
              · have := sizeOf_val_of_mem_entries hmem
                omega
              · exact refFreeEntries_mem hrf hmem
              · have := sizeOf_val_of_mem_entries hmem
                omega
            simp [resolveAllEntries, hv,
              ihl vis' (fun q hq => hm q (List.mem_cons_of_mem _ hq))]
        simp [resolveAll, aux es vis (fun _ h => h)]
      | arr xs =>
        simp only [refFree] at hrf
        have hfu2 : sizeOf xs ≤ fuel := by
          simp only [PDFValue.arr.sizeOf_spec] at hfu
          omega
        have hsz2 : sizeOf xs < n := by
          simp only [PDFValue.arr.sizeOf_spec] at hsz
          omega
        have aux : ∀ (l : List PDFValue) (vis' : Visited), (∀ x ∈ l, x ∈ xs) →
            resolveAllList (resolveAll d fuel) l vis' = .ok (l, vis') := by
          intro l
          induction l with
          | nil => intro vis' _; simp [resolveAllList]
          | cons v0 rest ihl =>
            intro vis' hm
            have hmem := hm v0 (List.mem_cons_self _ _)
            have hv : resolveAll d fuel v0 vis' = .ok (v0, vis') := by
              apply IH
              · have := List.sizeOf_lt_of_mem hmem
                omega
              · exact refFreeList_mem hrf hmem
              · have := List.sizeOf_lt_of_mem hmem
                omega
            simp [resolveAllList, hv,
              ihl vis' (fun q hq => hm q (List.mem_cons_of_mem _ hq))]
        simp [resolveAll, aux xs vis (fun _ h => h)]
      | null => simp [resolveAll]
      | hexString s => simp [resolveAll]
      | str s => simp [resolveAll]
      | int x => simp [resolveAll]
      | real g => simp [resolveAll]
      | bool b => simp [resolveAll]
      | name s => simp [resolveAll]

/-- A two-indirect-object scene used to evaluate resolution: the trailer
is `<< /Root 1 0 R >>` and object number 1 is the empty dictionary. -/
def refDoc : Document where
  fileBytes := []
  trailer := [("Root", .ref ⟨1, 0⟩)]
  xrefOffset := 0
  objects := fun n => if n == 1 then some (.dictObj []) else none

/-- C1: evaluation of the code at the failing input (trailer
`<< /Root 1 0 R >>`, object 1 = `<< >>`).  `resolveAll` resolves the
synthetic `_ref` entry itself, and since the object number is already in
the per-run visited map, the fully resolved Root dictionary stores under
`_ref` the cached raw dictionary — not the originating Ref (1,0) — so
`D["_ref"] == R` fails in the resolved graph even though the `_ref` key
is present. -/
theorem C1_ref_marker_eval :
    resolveGraph refDoc 8 =
      .ok (.dict [("Root", .dict [("_ref", .dict [("_ref", .ref ⟨1, 0⟩)])])]) ∧
    lookupEntry [("_ref", PDFValue.dict [("_ref", .ref ⟨1, 0⟩)])] "_ref" =
      some (.dict [("_ref", .ref ⟨1, 0⟩)]) ∧
    EqualPDFValue (.dict [("_ref", .ref ⟨1, 0⟩)]) (.ref ⟨1, 0⟩) = false :=
  ⟨rfl, by simp [lookupEntry], by simp [EqualPDFValue]⟩

/-- C2 counterexample: full resolution is not idempotent.  On the
document with trailer `<< /Root 1 0 R >>` and object 1 = `<< >>`, a
second `resolveAll` pass over the already fully resolved graph
re-resolves the Refs buried in the `_ref` entries and deepens every
`_ref` chain, so the two results are not structurally equal. -/
theorem C2_counterexample_not_idempotent :
    resolveAllFresh refDoc 8 (.dict refDoc.trailer) =
      .ok (.dict [("Root", .dict [("_ref", .dict [("_ref", .ref ⟨1, 0⟩)])])]) ∧
    resolveAllFresh refDoc 8
        (.dict [("Root", .dict [("_ref", .dict [("_ref", .ref ⟨1, 0⟩)])])]) =
      .ok (.dict [("Root", .dict [("_ref", .dict [("_ref",
        .dict [("_ref", .dict [("_ref", .ref ⟨1, 0⟩)])])])])]) ∧
    EqualPDFValue
      (.dict [("Root", .dict [("_ref", .dict [("_ref",
        .dict [("_ref", .dict [("_ref", .ref ⟨1, 0⟩)])])])])])
      (.dict [("Root", .dict [("_ref", .dict [("_ref", .ref ⟨1, 0⟩)])])]) = false :=
  ⟨rfl, rfl, by simp [EqualPDFValue, eqDictEntries, eqValueList, lookupEntry]⟩

/-- C2 (amended): `resolveAll` is the identity — and therefore idempotent
— on every value that contains no indirect reference (with enough fuel
for the modelled recursion); on graphs that still contain Refs a second
pass need not reproduce the first, because the synthetic `_ref` entries
are themselves re-resolved (see the counterexample). -/
theorem C2_resolveAll_idempotent_on_refFree :
    ∀ (d : Document) (fuel : Nat) (v : PDFValue),
      refFree v = true → sizeOf v ≤ fuel →
      resolveAllFresh d fuel v = .ok v ∧
      (∀ w, resolveAllFresh d fuel v = .ok w → resolveAllFresh d fuel w = .ok w) := by
  intro d fuel v hrf hfu
  have h1 : resolveAllFresh d fuel v = .ok v := by
    simp [resolveAllFresh, resolveAll_id_size (sizeOf v + 1) d fuel v [] (by omega) hrf hfu]
  refine ⟨h1, ?_⟩
  intro w hw
  rw [h1] at hw
  injection hw with hw
  subst hw
  exact h1

/-- Witness for C2 (amended): the theorem applied at a concrete Ref-free
value, with both hypotheses discharged by evaluation. -/
theorem C2_resolveAll_idempotent_on_refFree_witness :
    resolveAllFresh refDoc 1000 (.dict [("Size", .int 4)]) = .ok (.dict [("Size", .int 4)]) :=
  (C2_resolveAll_idempotent_on_refFree refDoc 1000 (.dict [("Size", .int 4)])
    (by simp [refFree, refFreeEntries]) (by decide)).1

/-- UTF-8 encoding of one character, as byte values. -/
def utf8EncodeCharNat (c : Char) : List Nat :=
  let n := c.toNat
  if n < 128 then [n]
  else if n < 2048 then [192 + n / 64, 128 + n % 64]
  else if n < 65536 then [224 + n / 4096, 128 + n / 64 % 64, 128 + n % 64]
  else [240 + n / 262144, 128 + n / 4096 % 64, 128 + n / 64 % 64, 128 + n % 64]

/-- The byte values of a Go string (Go source is UTF-8; indexing and
`len` on a Go string are byte-based). -/
def strBytes (s : String) : List Nat := (s.data.map utf8EncodeCharNat).flatten

/-- `ReadLine` from cursor.go, over a byte slice and a cursor position:
scan to the first CR or LF, return the bytes scanned, whether input was
available, and the new position (consuming the terminator, CRLF counted
once).  After the scan loop the Go code switches on `c.data[c.pos]`
without re-checking the bound, and after stepping over a CR it reads
`c.data[c.pos]` again for the LF look-ahead; when either index is out of
range the Go program panics with an index-out-of-range runtime error,
modelled as `none`. -/
def goReadLine (data : List Nat) (pos : Nat) : Option (List Nat × Bool × Nat) :=
  if pos ≥ data.length then some ([], false, pos)
  else
    let p := pos + (data.drop pos).findIdx (fun b => b == 13 || b == 10)
    let line := (data.drop pos).take (p - pos)
    if p < data.length then
      if data.getD p 0 == 13 then
        let p1 := p + 1
        if p1 < data.length then
          if data.getD p1 0 == 10 then some (line, true, p1 + 1)
          else some (line, true, p1)
        else none
      else if data.getD p 0 == 10 then some (line, true, p + 1)
      else some (line, true, p)
    else none

/-- C6: evaluation of `ReadLine` at the failing inputs.  When the
remaining input contains no CR/LF (here the 4 bytes of "xref") the scan
loop stops at the end of the slice and `switch c.data[c.pos]` indexes one
past the end; when the input ends with a lone CR, the CRLF look-ahead
`c.data[c.pos]` after `c.pos++` indexes past the end.  Both runs panic
(`none`) instead of returning the line with `true` as the claim states;
a properly terminated line is returned normally. -/
theorem C6_readLine_eval :
    goReadLine (strBytes "xref") 0 = none ∧
    goReadLine [97, 98, 13] 0 = none ∧
    goReadLine (strBytes "ab\n") 0 = some ([97, 98], true, 3) := by
  refine ⟨rfl, rfl, rfl⟩

/-- Whether the byte is a UTF-8 continuation byte (`10xxxxxx`). -/
def isContByte (b : Nat) : Bool := 128 ≤ b && b ≤ 191

/-- The RFC 3629 window for the second byte of a 3-byte sequence:
lead E0 requires A0..BF, lead ED requires 80..9F. -/
def utf8Second3 (b0 b1 : Nat) : Bool :=
  if b0 == 224 then 160 ≤ b1 && b1 ≤ 191
  else if b0 == 237 then 128 ≤ b1 && b1 ≤ 159
  else isContByte b1

/-- The RFC 3629 window for the second byte of a 4-byte sequence:
lead F0 requires 90..BF, lead F4 requires 80..8F. -/
def utf8Second4 (b0 b1 : Nat) : Bool :=
  if b0 == 240 then 144 ≤ b1 && b1 ≤ 191
  else if b0 == 244 then 128 ≤ b1 && b1 ≤ 143
  else isContByte b1

/-- One decode step of Go `for … range` over a string: the decoded rune
and the remaining bytes.  A valid multi-byte sequence is consumed whole;
any invalid sequence yields U+FFFD (65533) and consumes a single byte
(Go's range-over-string semantics). -/
def goDecodeRune (b0 : Nat) (rest : List Nat) : Nat × List Nat :=
  if b0 < 128 then (b0, rest)
  else if 194 ≤ b0 && b0 ≤ 223 then
    match rest with
    | b1 :: rest2 =>
      if isContByte b1 then ((b0 - 192) * 64 + (b1 - 128), rest2) else (65533, rest)
    | [] => (65533, rest)
  else if 224 ≤ b0 && b0 ≤ 239 then
    match rest with
    | b1 :: b2 :: rest3 =>
      if utf8Second3 b0 b1 && isContByte b2 then
        ((b0 - 224) * 4096 + (b1 - 128) * 64 + (b2 - 128), rest3)
      else (65533, rest)
    | _ => (65533, rest)
  else if 240 ≤ b0 && b0 ≤ 244 then
    match rest with
    | b1 :: b2 :: b3 :: rest4 =>
      if utf8Second4 b0 b1 && isContByte b2 && isContByte b3 then
        ((b0 - 240) * 262144 + (b1 - 128) * 4096 + (b2 - 128) * 64 + (b3 - 128), rest4)
      else (65533, rest)
    | _ => (65533, rest)
  else (65533, rest)

theorem goDecodeRune_rest_le (b0 : Nat) (rest : List Nat) :
    (goDecodeRune b0 rest).2.length ≤ rest.length := by
  unfold goDecodeRune
  split_ifs
  · simp
  · match rest with
    | [] => simp
    | b1 :: rest2 =>
      dsimp only
      split_ifs <;> simp <;> omega
  · match rest with
    | [] => simp
    | [b1] => simp
    | b1 :: b2 :: rest3 =>
      dsimp only
      split_ifs <;> simp <;> omega
  · match rest with
    | [] => simp
    | [b1] => simp
    | [b1, b2] => simp
    | b1 :: b2 :: b3 :: rest4 =>
      dsimp only
      split_ifs <;> simp <;> omega
  · simp

/-- Go `for … range` over a string: decode the UTF-8 bytes into runes,
one `goDecodeRune` step at a time. -/
def goRunes : List Nat → List Nat
  | [] => []
  | b0 :: rest => (goDecodeRune b0 rest).1 :: goRunes (goDecodeRune b0 rest).2
termination_by l => l.length
decreasing_by
  simp only [List.length_cons]
  have := goDecodeRune_rest_le b0 rest
  omega

/-- How many entries of the list are ≤ 127. -/
def countLE127 (l : List Nat) : Nat := (l.filter (fun b => decide (b ≤ 127))).length

theorem countLE127_cons (b : Nat) (l : List Nat) :
    countLE127 (b :: l) = (if b ≤ 127 then 1 else 0) + countLE127 l := by
  unfold countLE127
  rw [List.filter_cons]
  by_cases h : b ≤ 127 <;> simp [h, Nat.add_comm]

/-- One decode step preserves the below-128 count: an ASCII byte decodes
as itself; a valid multi-byte sequence consists of bytes ≥ 128 and
decodes to a rune ≥ 128; an invalid byte is ≥ 128 and decodes to
U+FFFD. -/
theorem goDecodeRune_count (b0 : Nat) (rest : List Nat) :
    countLE127 (b0 :: rest) =
      (if (goDecodeRune b0 rest).1 ≤ 127 then 1 else 0) +
        countLE127 (goDecodeRune b0 rest).2 := by
  unfold goDecodeRune
  by_cases h0 : b0 < 128
  · rw [if_pos h0]
    dsimp only
    rw [countLE127_cons]
  rw [if_neg h0]
  by_cases h1 : (194 ≤ b0 && b0 ≤ 223 : Bool) = true
  · rw [if_pos h1]
    simp only [Bool.and_eq_true, decide_eq_true_eq] at h1
    cases rest with
    | nil =>
      dsimp only
      rw [countLE127_cons]
      split_ifs <;> omega
    | cons b1 rest2 =>
      dsimp only
      by_cases hc : isContByte b1 = true
      · rw [if_pos hc]
        simp only [isContByte, Bool.and_eq_true, decide_eq_true_eq] at hc
        dsimp only
        rw [countLE127_cons, countLE127_cons]
        split_ifs <;> omega
      · rw [if_neg hc]
        dsimp only
        rw [countLE127_cons]
        split_ifs <;> omega
  rw [if_neg h1]
  simp only [Bool.and_eq_true, decide_eq_true_eq, not_and_or, not_le] at h1
  by_cases h2 : (224 ≤ b0 && b0 ≤ 239 : Bool) = true
  · rw [if_pos h2]
    simp only [Bool.and_eq_true, decide_eq_true_eq] at h2
    match rest with
    | [] =>
      dsimp only
      rw [countLE127_cons]
      split_ifs <;> omega
    | [b1] =>
      dsimp only
      rw [countLE127_cons]
      split_ifs <;> omega
    | b1 :: b2 :: rest3 =>
      dsimp only
      by_cases hval : (utf8Second3 b0 b1 && isContByte b2) = true
      · rw [if_pos hval]
        simp only [utf8Second3, isContByte, Bool.and_eq_true, decide_eq_true_eq] at hval
        dsimp only
        rw [countLE127_cons, countLE127_cons, countLE127_cons]
        have hkey : (b0 = 224 ∧ 160 ≤ b1 ∧ b1 ≤ 191) ∨
            (b0 = 237 ∧ 128 ≤ b1 ∧ b1 ≤ 159) ∨
            (b0 ≠ 224 ∧ b0 ≠ 237 ∧ 128 ≤ b1 ∧ b1 ≤ 191) := by
          rcases hval with ⟨hv1, _⟩
          by_cases he0 : b0 = 224
          · subst he0
            simp at hv1
            exact Or.inl ⟨rfl, hv1⟩
          · by_cases he1 : b0 = 237
            · subst he1
              simp at hv1
              exact Or.inr (Or.inl ⟨rfl, hv1⟩)
            · simp [he0, he1] at hv1
              exact Or.inr (Or.inr ⟨he0, he1, hv1⟩)
        have hrune : 2048 ≤ (b0 - 224) * 4096 + (b1 - 128) * 64 + (b2 - 128) := by
          rcases hkey with ⟨_, hw⟩ | ⟨he, hw⟩ | ⟨he0, he1, hw⟩
          · omega
          · omega
          · omega
        rcases hval with ⟨_, hv2⟩
        rcases hkey with ⟨_, hw⟩ | ⟨_, hw⟩ | ⟨_, _, hw⟩ <;> split_ifs <;> omega
      · rw [if_neg hval]
        dsimp only
        rw [countLE127_cons]
        split_ifs <;> omega
  rw [if_neg h2]
  simp only [Bool.and_eq_true, decide_eq_true_eq, not_and_or, not_le] at h2
  by_cases h3 : (240 ≤ b0 && b0 ≤ 244 : Bool) = true
  · rw [if_pos h3]
    simp only [Bool.and_eq_true, decide_eq_true_eq] at h3
    match rest with
    | [] =>
      dsimp only
      rw [countLE127_cons]
      split_ifs <;> omega
    | [b1] =>
      dsimp only
      rw [countLE127_cons]
      split_ifs <;> omega
    | [b1, b2] =>
      dsimp only
      rw [countLE127_cons]
      split_ifs <;> omega
    | b1 :: b2 :: b3 :: rest4 =>
      dsimp only
      by_cases hval : (utf8Second4 b0 b1 && isContByte b2 && isContByte b3) = true
      · rw [if_pos hval]
        simp only [utf8Second4, isContByte, Bool.and_eq_true, decide_eq_true_eq] at hval
        dsimp only
        rw [countLE127_cons, countLE127_cons, countLE127_cons, countLE127_cons]
        have hkey : (b0 = 240 ∧ 144 ≤ b1 ∧ b1 ≤ 191) ∨
            (b0 = 244 ∧ 128 ≤ b1 ∧ b1 ≤ 143) ∨
            (b0 ≠ 240 ∧ b0 ≠ 244 ∧ 128 ≤ b1 ∧ b1 ≤ 191) := by
          rcases hval with ⟨⟨hv1, _⟩, _⟩
          by_cases he0 : b0 = 240
          · subst he0
            simp at hv1
            exact Or.inl ⟨rfl, hv1⟩
          · by_cases he1 : b0 = 244
            · subst he1
              simp at hv1
              exact Or.inr (Or.inl ⟨rfl, hv1⟩)
            · simp [he0, he1] at hv1
              exact Or.inr (Or.inr ⟨he0, he1, hv1⟩)
        have hrune : 65536 ≤
            (b0 - 240) * 262144 + (b1 - 128) * 4096 + (b2 - 128) * 64 + (b3 - 128) := by
          rcases hkey with ⟨_, hw⟩ | ⟨he, hw⟩ | ⟨he0, he1, hw⟩
          · omega
          · omega
          · omega
        rcases hval with ⟨⟨_, hv2⟩, hv3⟩
        rcases hkey with ⟨_, hw⟩ | ⟨_, hw⟩ | ⟨_, _, hw⟩ <;> split_ifs <;> omega
      · rw [if_neg hval]
        dsimp only
        rw [countLE127_cons]
        split_ifs <;> omega
  rw [if_neg h3]
  dsimp only
  rw [countLE127_cons]
  split_ifs <;> omega

/-- The rune count below 128 equals the byte count below 128. -/
theorem countLE127_goRunes :
    ∀ (n : Nat) (l : List Nat), l.length ≤ n →
      countLE127 (goRunes l) = countLE127 l := by
  intro n
  induction n with
  | zero =>
    intro l h
    cases l with
    | nil => simp [goRunes]
    | cons b r => simp at h
  | succ n IH =>
    intro l hlen
    cases l with
    | nil => simp [goRunes]
    | cons b0 rest =>
      rw [goRunes, countLE127_cons,
        IH (goDecodeRune b0 rest).2
          (by have := goDecodeRune_rest_le b0 rest; simp at hlen; omega),
        ← goDecodeRune_count]

/-- `PDFError` from the error model: clause, subclause, the underlying
error messages, the page ordinal (0 = document-level), and the optional
Ref of the enclosing indirect object.  Field order follows the Go
struct. -/
structure PDFError where
  clause : String
  subclause : Nat
  errs : List String
  page : Nat
  objectRef : Option PDFRef
deriving DecidableEq, Repr

/-- `ValidationContext`: the page index (object number → 1-based page
ordinal) and the currently-enclosing page ordinal (0 = document-level).
The error accumulator of the Go struct is threaded explicitly by the
verifier functions of this embedding, which return their errors. -/
structure ValidationContext where
  PageIndex : List (Int × Nat)
  CurrentPage : Nat
deriving Repr

/-- The `_ref`-based Ref attribution shared by `newError`/`newErrors`:
only a Dict whose `_ref` entry is a PDFRef is attributed. -/
def refOfObj : PDFValue → Option PDFRef
  | .dict es =>
    match lookupEntry es "_ref" with
    | some (.ref r) => some r
    | _ => none
  | _ => none

/-- `newError`: one underlying message; page from the context (0 for a
nil Go context pointer, modelled as `none`). -/
def newError (ctx : Option ValidationContext) (obj : PDFValue) (clause : String)
    (subclause : Nat) (msg : String) : PDFError :=
  ⟨clause, subclause, [msg], (ctx.map (·.CurrentPage)).getD 0, refOfObj obj⟩

/-- `newErrors`: like `newError` with a list of underlying messages. -/
def newErrors (ctx : Option ValidationContext) (obj : PDFValue) (clause : String)
    (subclause : Nat) (errs : List String) : PDFError :=
  ⟨clause, subclause, errs, (ctx.map (·.CurrentPage)).getD 0, refOfObj obj⟩

/-- The page component of `PDFError.String`: ", page N" for a positive
page ordinal, ", document-level" otherwise. -/
def pageFragment (e : PDFError) : String :=
  if e.page > 0 then ", page " ++ toString e.page else ", document-level"

/-- `PDFError.String`: `PDF/A violation (<clause>/<sub>), <page>[, ref
&\x7bobj gen\x7d]: "msg1"; "msg2"…` (`&\x7b… \x7d` being Go `%v` of the
`*PDFRef` pointer). -/
def pdfErrorString (e : PDFError) : String :=
  "PDF/A violation" ++
    (if e.clause != "" then
      " (" ++ e.clause ++
        (if e.subclause > 0 then "/" ++ toString e.subclause else "") ++ ")"
    else "") ++
  pageFragment e ++
  (match e.objectRef with
    | none => ""
    | some r => ", ref &\x7b" ++ toString r.objNum ++ " " ++ toString r.genNum ++ "\x7d") ++
  (match e.errs with
    | [] => ""
    | msgs => ": \"" ++ String.intercalate "\"; \"" msgs ++ "\"")

/-- `verifyFileHeader` from verifier.go (check 6.1.2): read the first 128
bytes; line 1 must start with `%` (sub 1); line 2 must exist and start
with `%` (sub 2, returning immediately when violated); line 2 must be at
least 5 bytes long (sub 3); and every byte of line 2 after the leading
`%` must be > 127 — the Go loop `for _, byte := range comment[1:]`
iterates the *runes* of the UTF-8 string, collecting one underlying
error per rune value ≤ 127, aggregated into a single PDFError at sub 4.
Every error carries page ordinal 1.  `none` models the ReadLine panic;
the `%v` payloads of the first three messages are omitted. -/
def verifyFileHeader (fileBytes : List Nat) : Option (List PDFError) :=
  let buf := fileBytes.take 128
  match goReadLine buf 0 with
  | none => none
  | some (header, ok1, pos1) =>
    let errs1 : List PDFError :=
      if !ok1 || header.length == 0 || header.headD 0 != 37 then
        [⟨"6.1.2", 1, ["invalid PDF header"], 1, none⟩]
      else []
    match goReadLine buf pos1 with
    | none => none
    | some (comment, ok2, _) =>
      if !ok2 || comment.length == 0 || comment.headD 0 != 37 then
        some (errs1 ++ [⟨"6.1.2", 2, ["header must be followed by comment"], 1, none⟩])
      else
        let errs2 := errs1 ++
          (if comment.length < 5 then
            [⟨"6.1.2", 3, ["comment line must consist of at least 5 characters"], 1, none⟩]
          else [])
        let subErrs := (goRunes (comment.drop 1)).filterMap
          (fun r =>
            if r ≤ 127 then
              some (s!"byte value in comment line must be > 127 but was {r}")
            else none)
        some (errs2 ++ (if subErrs.length > 0 then [⟨"6.1.2", 4, subErrs, 1, none⟩] else []))

theorem filterMap_msg_length (g : Nat → String) :
    ∀ l : List Nat,
      (l.filterMap (fun r => if r ≤ 127 then some (g r) else none)).length = countLE127 l := by
  intro l
  induction l with
  | nil => rfl
  | cons b r ih =>
    rw [List.filterMap_cons]
    by_cases h : b ≤ 127 <;> simp [h, countLE127_cons, ih] <;> omega

set_option maxRecDepth 4000 in
unseal goRunes in
/-- C5: for every file whose second line exists (both ReadLine calls
return) and begins with `%`, the 6.1.2 check aggregates one underlying
error for each byte of the line after the `%` whose value is ≤ 127 into
a single PDFError at 6.1.2/4 (present exactly when there is at least one
such byte; the Go code iterates runes, but the below-128 rune count
equals the below-128 byte count); and on the literal file contents
`%PDF-1.7\n%wrong\n` the check returns exactly one PDFError, at 6.1.2/4,
with 5 underlying errors. -/
theorem C5_header_sub4_aggregation :
    (∀ (data l1 : List Nat) (ok1 : Bool) (p1 : Nat) (l2 : List Nat) (p2 : Nat),
      goReadLine (data.take 128) 0 = some (l1, ok1, p1) →
      goReadLine (data.take 128) p1 = some (l2, true, p2) →
      l2 ≠ [] → l2.headD 0 = 37 →
      ∃ errs, verifyFileHeader data = some errs ∧
        (errs.filter (fun e => e.clause == "6.1.2" && e.subclause == 4)).length
          = (if 0 < countLE127 (l2.drop 1) then 1 else 0) ∧
        (∀ e ∈ errs, e.subclause = 4 → e.errs.length = countLE127 (l2.drop 1))) ∧
    (verifyFileHeader (strBytes "%PDF-1.7\n%wrong\n")).map
        (List.map (fun e => (e.clause, e.subclause, e.errs.length, e.page)))
      = some [("6.1.2", 4, 5, 1)] := by
  constructor
  · intro data l1 ok1 p1 l2 p2 h1 h2 hne hhead
    have hlen0 : (l2.length == 0) = false := by
      cases l2 with
      | nil => exact absurd rfl hne
      | cons a b => simp
    have hhd : (l2.headD 0 != 37) = false := by rw [hhead]; decide
    have hcount : ((goRunes (l2.drop 1)).filterMap
        (fun r =>
          if r ≤ 127 then
            some (s!"byte value in comment line must be > 127 but was {r}")
          else none)).length = countLE127 (l2.drop 1) := by
      rw [filterMap_msg_length]
      exact countLE127_goRunes (l2.drop 1).length _ (Nat.le_refl _)
    simp only [verifyFileHeader, h1, h2, hlen0, hhd, Bool.or_false, Bool.not_true,
      Bool.false_or, if_false]
    refine ⟨_, rfl, ?_, ?_⟩
    · rw [List.filter_append, List.filter_append]
      rw [hcount]
      split <;> split <;> split <;> simp_all
    · intro e he hsub
      simp only [List.mem_append] at he
      rcases he with (he | he) | he
      · split at he <;> simp_all
      · split at he <;> simp_all
      · split at he <;> simp_all
  · rfl

theorem C5_header_sub4_aggregation_witness :
    ∃ errs, verifyFileHeader (strBytes "%PDF-1.7\n%wrong\n") = some errs ∧
      (errs.filter (fun e => e.clause == "6.1.2" && e.subclause == 4)).length
        = (if 0 < countLE127 (([37, 119, 114, 111, 110, 103] : List Nat).drop 1)
            then 1 else 0) ∧
      (∀ e ∈ errs, e.subclause = 4 →
        e.errs.length = countLE127 (([37, 119, 114, 111, 110, 103] : List Nat).drop 1)) :=
  C5_header_sub4_aggregation.1 (strBytes "%PDF-1.7\n%wrong\n")
    [37, 80, 68, 70, 45, 49, 46, 55] true 9 [37, 119, 114, 111, 110, 103] 16
    rfl rfl (by decide) rfl

/-- Go map `m[k] == nil`: the key is absent (zero-value read) or bound
to the nil interface value (`PDFValue.null`). -/
def entryIsNil (es : List (String × PDFValue)) (k : String) : Bool :=
  match lookupEntry es k with
  | none => true
  | some .null => true
  | some _ => false

/-- `d.file.ReadAt(buf, off)` of a single byte: the byte at offset `off`,
or the zero value left in `buf` when the offset is out of range (ReadAt
then reports an error, which the caller ignores). -/
def byteAt (data : List Nat) (off : Int) : Nat :=
  if h : 0 ≤ off ∧ off.toNat < data.length then data.get ⟨off.toNat, h.2⟩ else 0

/-- The EOF-marker scan of `verifyFileTrailer`: `for i := range int64(10)`
prepends the byte at `size - i` to `eof` and breaks with success as soon
as `string(eof)` has the prefix `%%EOF` (`[37,37,69,79,70]`).  `i` is the
current index and `remaining` the loop iterations left. -/
def eofLoop (data : List Nat) (size : Int) : Nat → Nat → List Nat → Bool × List Nat
  | _, 0, eof => (false, eof)
  | i, remaining + 1, eof =>
    let eof' := byteAt data (size - i) :: eof
    if ([37, 37, 69, 79, 70] : List Nat).isPrefixOf eof' then (true, eof')
    else eofLoop data size (i + 1) remaining eof'

/-- `verifyFileTrailer` from verifier.go (check 6.1.3): the trailer must
contain `ID` (sub 1), must not contain `Encrypt` (sub 2), and the last
ten file offsets scanned backwards must reveal a `%%EOF` marker (sub 3).
All errors carry page ordinal 0; the `%v` payload of the sub-3 message
is omitted. -/
def verifyFileTrailer (d : Document) : List PDFError :=
  (if entryIsNil d.trailer "ID" then
    [⟨"6.1.3", 1, ["trailer does not contain the required ID keyword"], 0, none⟩]
  else []) ++
  (if !(entryIsNil d.trailer "Encrypt") then
    [⟨"6.1.3", 2, ["trailer contains the forbidden Encrypt keyword"], 0, none⟩]
  else []) ++
  (if !(eofLoop d.fileBytes (d.fileBytes.length : Int) 0 10 []).1 then
    [⟨"6.1.3", 3, ["no EOF marker found"], 0, none⟩]
  else [])

/-- The ASCII cases of Go `unicode.IsSpace`, as used by `strings.Fields`
(the two non-ASCII space runes U+0085 and U+00A0 are not modelled). -/
def isGoSpace (b : Nat) : Bool :=
  b == 9 || b == 10 || b == 11 || b == 12 || b == 13 || b == 32

/-- `strings.Fields`: split around runs of whitespace. -/
def goFieldsAux : List Nat → List Nat → List (List Nat)
  | [], cur => if cur.isEmpty then [] else [cur.reverse]
  | b :: rest, cur =>
    if isGoSpace b then
      if cur.isEmpty then goFieldsAux rest []
      else cur.reverse :: goFieldsAux rest []
    else goFieldsAux rest (b :: cur)

def goFields (l : List Nat) : List (List Nat) := goFieldsAux l []

/-- `verifyCrossReferenceTable` from verifier.go (check 6.1.4): read 128
bytes at the xref offset; line 1 must be exactly `xref` (sub 1); line 2
must exist and be non-empty (sub 2, returning immediately when
violated); the subsection header must split into exactly two fields
(sub 3).  All errors carry page ordinal 0.  `none` models the ReadLine
panic. -/
def verifyCrossReferenceTable (d : Document) : Option (List PDFError) :=
  let buf := (d.fileBytes.drop d.xrefOffset).take 128
  match goReadLine buf 0 with
  | none => none
  | some (xr, ok1, pos1) =>
    let errs1 : List PDFError :=
      if !ok1 || xr.length == 0 || xr != strBytes "xref" then
        [⟨"6.1.4", 1, ["expected 'xref' keyword"], 0, none⟩]
      else []
    match goReadLine buf pos1 with
    | none => none
    | some (hdr, ok2, _) =>
      if !ok2 || hdr.length == 0 then
        some (errs1 ++
          [⟨"6.1.4", 2, ["expected cross reference subsection header after xref keyword"],
            0, none⟩])
      else
        some (errs1 ++
          (if (goFields hdr).length != 2 then
            [⟨"6.1.4", 3, ["cross reference subsection header should consist of two parts"],
              0, none⟩]
          else []))

/-- `GetMetadata` from document.go: resolve the `Info` path from the
trailer; the result must be a dictionary; keep the `PDFString`-valued
entries as string pairs. -/
def getMetadata (d : Document) : Except String (List (String × String)) :=
  match resolveGraphByPath d ["Info"] with
  | .error e => .error e
  | .ok v =>
    match v with
    | .dict es =>
      .ok (es.filterMap (fun kv =>
        match kv.2 with
        | .str s => some (kv.1, s)
        | _ => none))
    | _ => .error "information object is not a dictionary"

/-- `verifyDocumentInformationDictionary` from verifier.go (check 6.1.5):
nothing to check when the trailer has no `Info`; a metadata-retrieval
failure is one error at sub 1; otherwise keys outside the nine allowed
fields aggregate into one error at sub 2 and empty values into one at
sub 3.  All errors carry page ordinal 0; the `%v` payload of the sub-1
message is omitted. -/
def verifyDocumentInformationDictionary (d : Document) : List PDFError :=
  if entryIsNil d.trailer "Info" then []
  else
    match getMetadata d with
    | .error _ =>
      [⟨"6.1.5", 1, ["failed to get document information dictionary"], 0, none⟩]
    | .ok metadata =>
      let allowedFields := ["Title", "Author", "Subject", "Keywords", "Creator",
        "Producer", "CreationDate", "ModDate", "Trapped"]
      let disallowedErrs := metadata.filterMap (fun kv =>
        if !(allowedFields.contains kv.1) then
          some (s!"disallowed key {kv.1} in information dictionary")
        else none)
      let emptyErrs := metadata.filterMap (fun kv =>
        if kv.2.length == 0 then
          some (s!"empty value for key {kv.1} in information dictionary")
        else none)
      (if disallowedErrs.length > 0 then
        [⟨"6.1.5", 2, disallowedErrs, 0, none⟩]
      else []) ++
      (if emptyErrs.length > 0 then
        [⟨"6.1.5", 3, emptyErrs, 0, none⟩]
      else [])

theorem pageFragment_lit_one (c : String) (s : Nat) (m : List String) (r : Option PDFRef) :
    pageFragment ⟨c, s, m, 1, r⟩ = ", page 1" := by
  simp only [pageFragment]
  decide

theorem pageFragment_lit_zero (c : String) (s : Nat) (m : List String) (r : Option PDFRef) :
    pageFragment ⟨c, s, m, 0, r⟩ = ", document-level" := by
  simp only [pageFragment]
  decide

theorem mem_ite_singleton {c : Prop} [Decidable c] {e x : PDFError}
    (he : e ∈ (if c then [x] else [])) : e = x := by
  split at he <;> simp_all

/-- C10: every PDFError produced by the 6.1.2 file-header check carries
page ordinal 1, so its String form shows the suffix ", page 1"; every
PDFError produced by the 6.1.3 file-trailer, 6.1.4 cross-reference-table
and 6.1.5 information-dictionary checks carries page ordinal 0, shown as
", document-level". -/
theorem C10_structural_check_pages :
    (∀ (data : List Nat) (errs : List PDFError), verifyFileHeader data = some errs →
      ∀ e ∈ errs, e.page = 1 ∧ pageFragment e = ", page 1") ∧
    (∀ d : Document, ∀ e ∈ verifyFileTrailer d,
      e.page = 0 ∧ pageFragment e = ", document-level") ∧
    (∀ (d : Document) (errs : List PDFError), verifyCrossReferenceTable d = some errs →
      ∀ e ∈ errs, e.page = 0 ∧ pageFragment e = ", document-level") ∧
    (∀ d : Document, ∀ e ∈ verifyDocumentInformationDictionary d,
      e.page = 0 ∧ pageFragment e = ", document-level") := by
  refine ⟨?_, ?_, ?_, ?_⟩
  · intro data errs h e he
    simp only [verifyFileHeader] at h
    split at h
    · exact absurd h (by simp)
    · split at h
      · exact absurd h (by simp)
      · split at h
        · injection h with h
          subst h
          simp only [List.mem_append] at he
          rcases he with he | he
          · obtain rfl := mem_ite_singleton he
            exact ⟨rfl, pageFragment_lit_one _ _ _ _⟩
          · simp only [List.mem_singleton] at he
            subst he
            exact ⟨rfl, pageFragment_lit_one _ _ _ _⟩
        · injection h with h
          subst h
          simp only [List.mem_append] at he
          rcases he with (he | he) | he
          · obtain rfl := mem_ite_singleton he
            exact ⟨rfl, pageFragment_lit_one _ _ _ _⟩
          · obtain rfl := mem_ite_singleton he
            exact ⟨rfl, pageFragment_lit_one _ _ _ _⟩
          · obtain rfl := mem_ite_singleton he
            exact ⟨rfl, pageFragment_lit_one _ _ _ _⟩
  · intro d e he
    simp only [verifyFileTrailer, List.mem_append] at he
    rcases he with (he | he) | he <;>
      (obtain rfl := mem_ite_singleton he
       exact ⟨rfl, pageFragment_lit_zero _ _ _ _⟩)
  · intro d errs h e he
    simp only [verifyCrossReferenceTable] at h
    split at h
    · exact absurd h (by simp)
    · split at h
      · exact absurd h (by simp)
      · split at h
        · injection h with h
          subst h
          simp only [List.mem_append] at he
          rcases he with he | he
          · obtain rfl := mem_ite_singleton he
            exact ⟨rfl, pageFragment_lit_zero _ _ _ _⟩
          · simp only [List.mem_singleton] at he
            subst he
            exact ⟨rfl, pageFragment_lit_zero _ _ _ _⟩
        · injection h with h
          subst h
          simp only [List.mem_append] at he
          rcases he with he | he <;>
            (obtain rfl := mem_ite_singleton he
             exact ⟨rfl, pageFragment_lit_zero _ _ _ _⟩)
  · intro d e he
    simp only [verifyDocumentInformationDictionary] at he
    split at he
    · simp at he
    · split at he
      · simp only [List.mem_singleton] at he
        subst he
        exact ⟨rfl, pageFragment_lit_zero _ _ _ _⟩
      · simp only [List.mem_append] at he
        rcases he with he | he <;>
          (obtain rfl := mem_ite_singleton he
           exact ⟨rfl, pageFragment_lit_zero _ _ _ _⟩)

/-- A document whose trailer lacks `ID`, whose file is empty, and whose
`Info` value resolves to a non-dictionary: each document-level structural
check produces at least one error on it. -/
def badDoc : Document where
  fileBytes := []
  trailer := [("Info", .int 5)]
  xrefOffset := 0
  objects := fun _ => none

theorem C10_structural_check_pages_witness :
    ((⟨"6.1.2", 1, ["invalid PDF header"], 1, none⟩ : PDFError).page = 1 ∧
      pageFragment ⟨"6.1.2", 1, ["invalid PDF header"], 1, none⟩ = ", page 1") ∧
    ((⟨"6.1.3", 1, ["trailer does not contain the required ID keyword"], 0, none⟩
        : PDFError).page = 0 ∧
      pageFragment ⟨"6.1.3", 1, ["trailer does not contain the required ID keyword"], 0, none⟩
        = ", document-level") ∧
    ((⟨"6.1.4", 1, ["expected 'xref' keyword"], 0, none⟩ : PDFError).page = 0 ∧
      pageFragment ⟨"6.1.4", 1, ["expected 'xref' keyword"], 0, none⟩
        = ", document-level") ∧
    ((⟨"6.1.5", 1, ["failed to get document information dictionary"], 0, none⟩
        : PDFError).page = 0 ∧
      pageFragment ⟨"6.1.5", 1, ["failed to get document information dictionary"], 0, none⟩
        = ", document-level") :=
  ⟨C10_structural_check_pages.1 (strBytes "ab\ncd\n")
      [⟨"6.1.2", 1, ["invalid PDF header"], 1, none⟩,
        ⟨"6.1.2", 2, ["header must be followed by comment"], 1, none⟩]
      rfl _ (by simp),
    C10_structural_check_pages.2.1 badDoc _ (by simp [verifyFileTrailer]; decide),
    C10_structural_check_pages.2.2.1 badDoc
      [⟨"6.1.4", 1, ["expected 'xref' keyword"], 0, none⟩,
        ⟨"6.1.4", 2, ["expected cross reference subsection header after xref keyword"],
          0, none⟩]
      rfl _ (by simp),
    C10_structural_check_pages.2.2.2 badDoc _ (by simp [verifyDocumentInformationDictionary]; decide)⟩

/-- `isWhitespace` from lexer.go (PDF whitespace, including NUL). -/
def isWhitespace (b : Nat) : Bool :=
  b == 0 || b == 9 || b == 10 || b == 12 || b == 13 || b == 32

/-- `isHexDigit` from lexer.go. -/
def isHexDigit (b : Nat) : Bool :=
  (48 ≤ b && b ≤ 57) || (65 ≤ b && b ≤ 70) || (97 ≤ b && b ≤ 102)

/-- `validateHexString` from verifier.go (check 6.1.6): iterate the bytes
of the hex string's value, skipping whitespace; every non-hex byte
contributes one underlying error, aggregated into a single PDFError at
sub 1; one PDFError at sub 2 when the non-whitespace count is odd (Go
`%v` prints the byte as its decimal value). -/
def validateHexString (v : String) (ctx : Option ValidationContext) : List PDFError :=
  let hex := strBytes v
  let nonWs := hex.filter (fun b => !isWhitespace b)
  let hexErrs := nonWs.filterMap (fun b =>
    if !isHexDigit b then some (s!"contains non-hex character: \x27{b}\x27") else none)
  let hexCount := nonWs.length
  (if hexErrs.length > 0 then [newErrors ctx (.hexString v) "6.1.6" 1 hexErrs] else []) ++
  (if hexCount % 2 != 0 then
    [newError ctx (.hexString v) "6.1.6" 2 (s!"contains an odd number of hex chars ({hexCount})")]
  else [])

theorem hexErrs_length (g : Nat → String) :
    ∀ l : List Nat, ((l.filter (fun b => !isWhitespace b)).filterMap
        (fun b => if !isHexDigit b then some (g b) else none)).length
      = (l.filter (fun b => !isWhitespace b && !isHexDigit b)).length := by
  intro l
  induction l with
  | nil => rfl
  | cons b r ih =>
    by_cases hw : isWhitespace b <;> by_cases hh : isHexDigit b <;>
      simp [List.filter_cons, List.filterMap_cons, hw, hh] at ih ⊢ <;> omega

/-- C4: for every HexString value the 6.1.6 check aggregates one
underlying error per non-whitespace non-hex byte into a single PDFError
at 6.1.6/1 (present exactly when there is at least one such byte), and
produces one PDFError at 6.1.6/2 exactly when the non-whitespace byte
count is odd; the value "XXXX" yields exactly one PDFError, at 6.1.6/1
with four underlying errors, and "AAA" yields exactly one PDFError, at
6.1.6/2. -/
theorem C4_hexstring_check :
    (∀ (v : String) (ctx : Option ValidationContext),
      ((validateHexString v ctx).filter
          (fun e => e.clause == "6.1.6" && e.subclause == 1)).length
        = (if 0 < ((strBytes v).filter (fun b => !isWhitespace b && !isHexDigit b)).length
            then 1 else 0) ∧
      (∀ e ∈ validateHexString v ctx, e.subclause = 1 →
        e.errs.length
          = ((strBytes v).filter (fun b => !isWhitespace b && !isHexDigit b)).length) ∧
      ((validateHexString v ctx).filter
          (fun e => e.clause == "6.1.6" && e.subclause == 2)).length
        = (if ((strBytes v).filter (fun b => !isWhitespace b)).length % 2 = 1
            then 1 else 0)) ∧
    (validateHexString "XXXX" none).map (fun e => (e.clause, e.subclause, e.errs.length))
      = [("6.1.6", 1, 4)] ∧
    (validateHexString "AAA" none).map (fun e => (e.clause, e.subclause, e.errs.length))
      = [("6.1.6", 2, 1)] := by
  refine ⟨?_, rfl, rfl⟩
  intro v ctx
  have hkey := hexErrs_length
    (fun b => s!"contains non-hex character: \x27{b}\x27") (strBytes v)
  refine ⟨?_, ?_, ?_⟩
  · simp only [validateHexString, List.filter_append, List.length_append, hkey]
    split <;> split <;> simp_all [newError, newErrors]
  · intro e he hsub
    simp only [validateHexString, List.mem_append] at he
    rcases he with he | he
    · obtain rfl := mem_ite_singleton he
      simpa [newErrors] using hkey
    · obtain rfl := mem_ite_singleton he
      simp [newError] at hsub
  · simp only [validateHexString, List.filter_append, List.length_append, hkey]
    split <;> split <;> simp_all [newError, newErrors] <;> omega

theorem C4_hexstring_check_witness :
    ((validateHexString "XXXX" none).headD ⟨"", 0, [], 0, none⟩).errs.length
      = ((strBytes "XXXX").filter (fun b => !isWhitespace b && !isHexDigit b)).length :=
  ((C4_hexstring_check.1 "XXXX" none).2.1
    ((validateHexString "XXXX" none).headD ⟨"", 0, [], 0, none⟩)
    (by decide) (by decide))

/-- The `for _, v := range intents` loop of `verifyOutputIntent`
(check 6.2.2), with the `indirectObject` loop state: each intent must be
a Dict (sub 2) with a Name-valued `S` (sub 3) equal to `GTS_PDFA1`
(sub 4, not skipping the rest of the body), a non-nil
`OutputConditionIdentifier` (sub 5); entries carrying a
`DestOutputProfile` must all carry the same one (sub 6, compared with
`EqualPDFValue` against the first such profile), which must resolve
(sub 7) to a stream dictionary (sub 8) whose `N` (sub 9) is 1, 3 or 4
(sub 10). -/
def outputIntentLoop (d : Document) :
    List PDFValue → Option PDFValue → List PDFError
  | [], _ => []
  | v :: rest, ind =>
    match v with
    | .dict intent =>
      match lookupEntry intent "S" with
      | some (.name s) =>
        let errs4 : List PDFError :=
          if s != "GTS_PDFA1" then
            [⟨"6.2.2", 4, ["expected S was not GTS_PDFA1"], 0, none⟩]
          else []
        if entryIsNil intent "OutputConditionIdentifier" then
          errs4 ++ [⟨"6.2.2", 5, ["OutputConditionIdentifier is required but was nil"], 0, none⟩]
            ++ outputIntentLoop d rest ind
        else
          match lookupEntry intent "DestOutputProfile" with
          | none => errs4 ++ outputIntentLoop d rest ind
          | some .null => errs4 ++ outputIntentLoop d rest ind
          | some dest =>
            match ind with
            | some io =>
              if !EqualPDFValue io dest then
                errs4 ++ [⟨"6.2.2", 6, ["expected DestOutputProfile to equal the first"], 0, none⟩]
                  ++ outputIntentLoop d rest (some io)
              else
                errs4 ++
                (match resolveObject d dest with
                 | .error _ => [⟨"6.2.2", 7, ["unable to resolve DestOutputProfile"], 0, none⟩]
                 | .ok (.dict profileMap) =>
                   match lookupEntry profileMap "N" with
                   | some (.int n) =>
                     if !(n == 1 || n == 3 || n == 4) then
                       [⟨"6.2.2", 10, ["number of colour components N must be 1, 3, or 4"], 0, none⟩]
                     else []
                   | _ => [⟨"6.2.2", 9, ["could not retrieve number of colour components N"], 0, none⟩]
                 | .ok _ => [⟨"6.2.2", 8, ["unexpected format for DestOutputProfile encountered"], 0, none⟩])
                  ++ outputIntentLoop d rest (some io)
            | none =>
              errs4 ++
              (match resolveObject d dest with
               | .error _ => [⟨"6.2.2", 7, ["unable to resolve DestOutputProfile"], 0, none⟩]
               | .ok (.dict profileMap) =>
                 match lookupEntry profileMap "N" with
                 | some (.int n) =>
                   if !(n == 1 || n == 3 || n == 4) then
                     [⟨"6.2.2", 10, ["number of colour components N must be 1, 3, or 4"], 0, none⟩]
                   else []
                 | _ => [⟨"6.2.2", 9, ["could not retrieve number of colour components N"], 0, none⟩]
               | .ok _ => [⟨"6.2.2", 8, ["unexpected format for DestOutputProfile encountered"], 0, none⟩])
                ++ outputIntentLoop d rest (some dest)
      | _ =>
        ⟨"6.2.2", 3, ["expected S to be a PDFName"], 0, none⟩ :: outputIntentLoop d rest ind
    | _ =>
      ⟨"6.2.2", 2, ["expected OutputIntent to be a PDFDict"], 0, none⟩ :: outputIntentLoop d rest ind

/-- `verifyOutputIntent` from verifier.go (check 6.2.2): any resolution
error for the path Root → OutputIntents, or a nil result, passes the
check silently; a non-array result is one error at sub 1; otherwise scan
the intents (see `outputIntentLoop`). -/
def verifyOutputIntent (d : Document) : List PDFError :=
  match resolveGraphByPath d ["Root", "OutputIntents"] with
  | .error _ => []
  | .ok values =>
    match values with
    | .null => []
    | .arr intents => outputIntentLoop d intents none
    | _ => [⟨"6.2.2", 1, ["OutputIntents object is not an array"], 0, none⟩]

/-- A document whose trailer has no `Root` key at all. -/
def c9docMissingRoot : Document where
  fileBytes := []
  trailer := [("Size", .int 4)]
  xrefOffset := 0
  objects := fun _ => none

/-- A document whose `Root` is a dangling indirect reference. -/
def c9docBrokenRef : Document where
  fileBytes := []
  trailer := [("Root", .ref ⟨5, 0⟩)]
  xrefOffset := 0
  objects := fun _ => none

/-- C9: the 6.2.2 check reports no errors whenever resolving
Root → OutputIntents from the trailer returns any error whatsoever —
the missing-Root and broken-reference failures below included, each
silently treated as "OutputIntents absent". -/
theorem C9_output_intent_swallows_resolution_errors :
    (∀ (d : Document) (e : String),
      resolveGraphByPath d ["Root", "OutputIntents"] = .error e →
      verifyOutputIntent d = []) ∧
    (resolveGraphByPath c9docMissingRoot ["Root", "OutputIntents"]
        = .error "key \"Root\" not found in dictionary" ∧
      verifyOutputIntent c9docMissingRoot = []) ∧
    (resolveGraphByPath c9docBrokenRef ["Root", "OutputIntents"]
        = .error "object 5 not found in xref table" ∧
      verifyOutputIntent c9docBrokenRef = []) := by
  refine ⟨?_, ⟨?_, ?_⟩, ⟨?_, ?_⟩⟩
  · intro d e h
    simp only [verifyOutputIntent, h]
  · rfl
  · rfl
  · rfl
  · rfl

theorem C9_output_intent_swallows_resolution_errors_witness :
    verifyOutputIntent c9docMissingRoot = [] :=
  C9_output_intent_swallows_resolution_errors.1 c9docMissingRoot
    "key \"Root\" not found in dictionary" rfl

/-- Go map read `ctx.PageIndex[ref.ObjNum]` (zero value 0 when absent). -/
def lookupPageIndex : List (Int × Nat) → Int → Nat
  | [], _ => 0
  | (k', n) :: rest, k => if k' == k then n else lookupPageIndex rest k

/-- `validateStreamObject` from verifier.go (check 6.1.7): a dictionary
must not carry `F` (sub 1), `FFilter` (sub 2) or `FDecodeParams`
(sub 3). -/
def validateStreamObject (es : List (String × PDFValue)) (ctx : ValidationContext) :
    List PDFError :=
  (if !(entryIsNil es "F") then
    [newError (some ctx) (.dict es) "6.1.7" 1 "stream object contains invalid key F"]
  else []) ++
  (if !(entryIsNil es "FFilter") then
    [newError (some ctx) (.dict es) "6.1.7" 2 "stream object contains invalid key FFilter"]
  else []) ++
  (if !(entryIsNil es "FDecodeParams") then
    [newError (some ctx) (.dict es) "6.1.7" 3 "stream object contains invalid key FDecodeParams"]
  else [])

mutual

/-- The `walk` closure of `verifyDocument` (checks 6.1.6/6.1.7): on a
Dict, update the current page when `Type` is the Name `Page` and `_ref`
is a Ref, run the stream-object check, and recurse into the values; on
an Array recurse into the items; on a HexString run the hex-string
check.  The `visited` pointer-identity map of the Go walk deduplicates
physically shared subtrees; pointer identity has no counterpart on pure
values, so this walk revisits shared subtrees instead (Go map iteration
order is also fixed here to the entry order). -/
def walkValue (ctx : ValidationContext) : PDFValue → List PDFError × ValidationContext
  | .dict es =>
    let isPage : Bool :=
      match lookupEntry es "Type" with
      | some (.name t) => t == "Page"
      | _ => false
    let ctx1 :=
      if isPage then
        match lookupEntry es "_ref" with
        | some (.ref r) => { ctx with CurrentPage := lookupPageIndex ctx.PageIndex r.objNum }
        | _ => ctx
      else ctx
    let streamErrs := validateStreamObject es ctx1
    let out := walkEntries ctx1 es
    (streamErrs ++ out.1, out.2)
  | .arr xs => walkList ctx xs
  | .hexString s => (validateHexString s (some ctx), ctx)
  | _ => ([], ctx)
termination_by v => sizeOf v

/-- The `for _, val := range v` recursion of the walk over a Dict. -/
def walkEntries (ctx : ValidationContext) :
    List (String × PDFValue) → List PDFError × ValidationContext
  | [] => ([], ctx)
  | (k, v) :: rest =>
    let out1 := walkValue ctx v
    let out2 := walkEntries out1.2 rest
    (out1.1 ++ out2.1, out2.2)
termination_by es => sizeOf es

/-- The `for _, item := range v` recursion of the walk over an Array. -/
def walkList (ctx : ValidationContext) : List PDFValue → List PDFError × ValidationContext
  | [] => ([], ctx)
  | v :: rest =>
    let out1 := walkValue ctx v
    let out2 := walkList out1.2 rest
    (out1.1 ++ out2.1, out2.2)
termination_by xs => sizeOf xs

end

/-- `verifyDocument` from verifier.go: walk the resolved graph and
return the accumulated findings. -/
def verifyDocument (graph : PDFValue) (ctx : ValidationContext) : List PDFError :=
  (walkValue ctx graph).1

/-- `verifyIndirectObjects` from verifier.go (check 6.1.8): a stub that
always reports nothing. -/
def verifyIndirectObjects (d : Document) : List PDFError := []

/-- `verifyOptionalContent` from verifier.go (check 6.1.13): one error
when Root → OCProperties resolves successfully, nothing on any
resolution error. -/
def verifyOptionalContent (d : Document) : List PDFError :=
  match resolveGraphByPath d ["Root", "OCProperties"] with
  | .ok _ => [⟨"6.1.13", 1, ["OCProperties not allowed in document catalog"], 0, none⟩]
  | .error _ => []

/-- `verifyPdfA1b` from verifier.go: run the four structural checks into
`issues`; a graph-resolution failure or a page-index failure returns a
single fresh PDFError at 6.1.6/0 (discarding `issues`); otherwise append
the findings of the document walk and the remaining checks and return
everything.  `buildPageIndex` is absent from the sources, so its outcome
is abstracted as the `pageIdx` argument; `none` models a ReadLine panic
inside the header or xref check. -/
def verifyPdfA1bAux (d : Document) (fuel : Nat)
    (pageIdx : Except String (List (Int × Nat))) : Option (List PDFError) :=
  match verifyFileHeader d.fileBytes with
  | none => none
  | some hdrErrs =>
    match verifyCrossReferenceTable d with
    | none => none
    | some xrefErrs =>
      let issues := hdrErrs ++ verifyFileTrailer d ++ xrefErrs
        ++ verifyDocumentInformationDictionary d
      match resolveGraph d fuel with
      | .error e => some [⟨"6.1.6", 0, [e], 0, none⟩]
      | .ok graph =>
        match pageIdx with
        | .error e => some [⟨"6.1.6", 0, [e], 0, none⟩]
        | .ok pi =>
          some (issues ++ verifyDocument graph ⟨pi, 0⟩ ++ verifyIndirectObjects d
            ++ verifyOptionalContent d ++ verifyOutputIntent d)

/-- C3: when graph resolution fails (or the abstracted page-index build
fails), the PDF/A-1b run returns a single PDFError at 6.1.6/0 carrying
the failure, discarding everything else; when both succeed, no check
aborts the run — the returned list is exactly the concatenation of every
check's findings. -/
theorem C3_verify_error_semantics :
    (∀ (d : Document) (fuel : Nat) (pageIdx : Except String (List (Int × Nat)))
        (hdrErrs xrefErrs : List PDFError) (e : String),
      verifyFileHeader d.fileBytes = some hdrErrs →
      verifyCrossReferenceTable d = some xrefErrs →
      resolveGraph d fuel = .error e →
      verifyPdfA1bAux d fuel pageIdx = some [⟨"6.1.6", 0, [e], 0, none⟩]) ∧
    (∀ (d : Document) (fuel : Nat) (g : PDFValue)
        (hdrErrs xrefErrs : List PDFError) (e : String),
      verifyFileHeader d.fileBytes = some hdrErrs →
      verifyCrossReferenceTable d = some xrefErrs →
      resolveGraph d fuel = .ok g →
      verifyPdfA1bAux d fuel (.error e) = some [⟨"6.1.6", 0, [e], 0, none⟩]) ∧
    (∀ (d : Document) (fuel : Nat) (g : PDFValue) (pi : List (Int × Nat))
        (hdrErrs xrefErrs : List PDFError),
      verifyFileHeader d.fileBytes = some hdrErrs →
      verifyCrossReferenceTable d = some xrefErrs →
      resolveGraph d fuel = .ok g →
      verifyPdfA1bAux d fuel (.ok pi) = some
        (hdrErrs ++ verifyFileTrailer d ++ xrefErrs ++ verifyDocumentInformationDictionary d
          ++ verifyDocument g ⟨pi, 0⟩ ++ verifyIndirectObjects d
          ++ verifyOptionalContent d ++ verifyOutputIntent d)) := by
  refine ⟨?_, ?_, ?_⟩
  · intro d fuel pageIdx hdrErrs xrefErrs e h1 h2 h3
    simp only [verifyPdfA1bAux, h1, h2, h3]
  · intro d fuel g hdrErrs xrefErrs e h1 h2 h3
    simp only [verifyPdfA1bAux, h1, h2, h3]
  · intro d fuel g pi hdrErrs xrefErrs h1 h2 h3
    simp only [verifyPdfA1bAux, h1, h2, h3]

/-- A document whose file parses into two plain lines and whose `Root`
is a dangling indirect reference, so graph resolution fails. -/
def c3doc : Document where
  fileBytes := strBytes "a\nb\n"
  trailer := [("Root", .ref ⟨1, 0⟩)]
  xrefOffset := 0
  objects := fun _ => none

theorem C3_verify_error_semantics_witness :
    verifyPdfA1bAux c3doc 8 (.ok [])
      = some [⟨"6.1.6", 0, ["object 1 not found in xref table"], 0, none⟩] :=
  C3_verify_error_semantics.1 c3doc 8 (.ok [])
    [⟨"6.1.2", 1, ["invalid PDF header"], 1, none⟩,
      ⟨"6.1.2", 2, ["header must be followed by comment"], 1, none⟩]
    [⟨"6.1.4", 1, ["expected 'xref' keyword"], 0, none⟩,
      ⟨"6.1.4", 3, ["cross reference subsection header should consist of two parts"], 0, none⟩]
    "object 1 not found in xref table" rfl rfl rfl

/-- `TokenType` from lexer.go. -/
inductive TokenType where
  | error
  | eof
  | boolean
  | integer
  | real
  | string
  | hexString
  | name
  | keyword
  | arrayStart
  | arrayEnd
  | dictStart
  | dictEnd
deriving DecidableEq, Repr

/-- `Token` from lexer.go. -/
structure Token where
  type : TokenType
  value : String
deriving DecidableEq, Repr

/-- The `Lexer` state relevant to parsing: the pushback stack `pushed`
(Go keeps the stack top at the slice end; here at the list head) and the
tokens the byte reader would still deliver, abstracted as the list
`stream` (an exhausted reader yields EOF tokens). -/
structure Lexer where
  pushed : List Token
  stream : List Token
deriving DecidableEq, Repr

/-- `NextToken` from lexer.go: pop the pushback stack if non-empty, else
pull the next token from the stream, else the EOF token. -/
def NextToken (l : Lexer) : Token × Lexer :=
  match l.pushed with
  | t :: rest => (t, { l with pushed := rest })
  | [] =>
    match l.stream with
    | [] => (⟨.eof, ""⟩, l)
    | t :: rest => (t, { l with stream := rest })

/-- `UnreadToken` from lexer.go: push onto the pushback stack. -/
def UnreadToken (l : Lexer) (t : Token) : Lexer :=
  { l with pushed := t :: l.pushed }

mutual

/-- `parseObject` from the parser: keywords and names become Names,
booleans compare against `true`, an Integer pulls the next two tokens
and builds a Ref when they are an Integer followed by the Keyword `R`
(else pushes both back, `tok3` first, and emits the Integer), reals go
through `strconv.ParseFloat` (abstracted as the parameter `pf`), `[`
and `<<` recurse (the recursion depth bounded by the explicit `fuel`,
which the Go code does not need), and any other token is an error. -/
def parseObject (pf : String → Option GoFloat) :
    Nat → Lexer → Token → Except String (PDFValue × Lexer)
  | _, l, ⟨.keyword, v⟩ => .ok (.name v, l)
  | _, l, ⟨.boolean, v⟩ => .ok (.bool (v == "true"), l)
  | _, l, ⟨.integer, v⟩ =>
    let out2 := NextToken l
    let out3 := NextToken out2.2
    if out2.1.type == .integer && (out3.1.type == .keyword && out3.1.value == "R") then
      .ok (.ref ⟨goAtoiD v, goAtoiD out2.1.value⟩, out3.2)
    else
      .ok (.int (goAtoiD v), UnreadToken (UnreadToken out3.2 out3.1) out2.1)
  | _, l, ⟨.real, v⟩ =>
    match pf v with
    | none => .error ("invalid real: " ++ v)
    | some f => .ok (.real f, l)
  | _, l, ⟨.string, v⟩ => .ok (.str v, l)
  | _, l, ⟨.hexString, v⟩ => .ok (.hexString v, l)
  | _, l, ⟨.name, v⟩ => .ok (.name v, l)
  | fuel, l, ⟨.arrayStart, _⟩ =>
    match fuel with
    | 0 => .error "parse recursion limit exceeded"
    | n + 1 =>
      match parseArray pf n l [] with
      | .error e => .error e
      | .ok out => .ok (.arr out.1, out.2)
  | fuel, l, ⟨.dictStart, _⟩ =>
    match fuel with
    | 0 => .error "parse recursion limit exceeded"
    | n + 1 =>
      match parseDictionary pf n l [] with
      | .error e => .error e
      | .ok out => .ok (.dict out.1, out.2)
  | _, _, ⟨.error, v⟩ => .error ("unexpected token with value " ++ v)
  | _, _, ⟨.eof, v⟩ => .error ("unexpected token with value " ++ v)
  | _, _, ⟨.arrayEnd, v⟩ => .error ("unexpected token with value " ++ v)
  | _, _, ⟨.dictEnd, v⟩ => .error ("unexpected token with value " ++ v)

/-- `parseDictionary` from the parser: loop until `>>`, skipping a
nested `<<` key position, requiring Name keys, and storing each parsed
value under its key. -/
def parseDictionary (pf : String → Option GoFloat) :
    Nat → Lexer → List (String × PDFValue) →
      Except String (List (String × PDFValue) × Lexer)
  | 0, _, _ => .error "parse recursion limit exceeded"
  | fuel + 1, l, acc =>
    let outK := NextToken l
    if outK.1.type == .dictEnd then .ok (acc, outK.2)
    else if outK.1.type == .eof then .error "unexpected EOF while parsing dictionary"
    else if outK.1.type == .dictStart then parseDictionary pf fuel outK.2 acc
    else if outK.1.type != .name then .error "expected dictionary key"
    else
      let outV := NextToken outK.2
      match parseObject pf fuel outV.2 outV.1 with
      | .error e => .error e
      | .ok out => parseDictionary pf fuel out.2 (setEntry acc outK.1.value out.1)

/-- `parseArray` from the parser: loop until `]`, appending each parsed
element. -/
def parseArray (pf : String → Option GoFloat) :
    Nat → Lexer → List PDFValue → Except String (List PDFValue × Lexer)
  | 0, _, _ => .error "parse recursion limit exceeded"
  | fuel + 1, l, acc =>
    let outT := NextToken l
    if outT.1.type == .arrayEnd then .ok (acc, outT.2)
    else if outT.1.type == .eof then .error "unexpected EOF while parsing array"
    else
      match parseObject pf fuel outT.2 outT.1 with
      | .error e => .error e
      | .ok out => parseArray pf fuel out.2 (acc ++ [out.1])

end

/-- C8: on an Integer token the parser pulls the next two tokens; if
they are an Integer followed by the Keyword `R` it returns a Ref whose
object and generation numbers are the two parsed integers, consuming
them; otherwise it returns a plain Integer after pushing both tokens
back (tok3 first, then tok2), so that the next two reads deliver them
again in their original order and restore the lexer state. -/
theorem C8_integer_ref_parse :
    ∀ (pf : String → Option GoFloat) (fuel : Nat) (l : Lexer)
      (tok tok2 tok3 : Token) (l2 l3 : Lexer),
      tok.type = .integer →
      NextToken l = (tok2, l2) →
      NextToken l2 = (tok3, l3) →
      ((tok2.type = .integer ∧ tok3.type = .keyword ∧ tok3.value = "R") →
        parseObject pf fuel l tok
          = .ok (.ref ⟨goAtoiD tok.value, goAtoiD tok2.value⟩, l3)) ∧
      (¬(tok2.type = .integer ∧ tok3.type = .keyword ∧ tok3.value = "R") →
        parseObject pf fuel l tok
            = .ok (.int (goAtoiD tok.value), UnreadToken (UnreadToken l3 tok3) tok2) ∧
          NextToken (UnreadToken (UnreadToken l3 tok3) tok2)
            = (tok2, UnreadToken l3 tok3) ∧
          NextToken (UnreadToken l3 tok3) = (tok3, l3)) := by
  intro pf fuel l tok tok2 tok3 l2 l3 htok h2 h3
  obtain ⟨ty, tv⟩ := tok
  simp only at htok
  subst htok
  constructor
  · intro hcond
    obtain ⟨hc1, hc2, hc3⟩ := hcond
    simp only [parseObject, h2, h3, hc1, hc2, hc3]
    simp
  · intro hcond
    have hfalse :
        ¬((tok2.type == TokenType.integer
            && (tok3.type == TokenType.keyword && tok3.value == "R")) = true) := by
      simp only [Bool.and_eq_true, beq_iff_eq]
      exact hcond
    refine ⟨?_, ?_, ?_⟩
    · simp only [parseObject, h2, h3]
      rw [if_neg hfalse]
    · obtain ⟨p3, s3⟩ := l3
      rfl
    · obtain ⟨p3, s3⟩ := l3
      rfl

theorem C8_integer_ref_parse_witness :
    parseObject (fun _ => none) 5 ⟨[], [⟨.integer, "0"⟩, ⟨.keyword, "R"⟩]⟩ ⟨.integer, "7"⟩
      = .ok (.ref ⟨goAtoiD "7", goAtoiD "0"⟩, ⟨[], []⟩) :=
  (C8_integer_ref_parse (fun _ => none) 5 ⟨[], [⟨.integer, "0"⟩, ⟨.keyword, "R"⟩]⟩
    ⟨.integer, "7"⟩ ⟨.integer, "0"⟩ ⟨.keyword, "R"⟩
    ⟨[], [⟨.keyword, "R"⟩]⟩ ⟨[], []⟩ rfl rfl rfl).1 ⟨rfl, rfl, rfl⟩

end Pdfrab
